import Mathlib

/-!
The library strikemysqlqueries: SQL statement assembly.

A shallow embedding of `sql_queries.go` and the properties of its literal formatter,
clause renderers and statement templates.

Go strings are embedded as `String`, `fmt.Sprintf` with `%s` verbs as concatenation,
slices and variadic arguments as `List`, and the dynamic value of a `FieldWithValue`
as the sum type `Value`.
-/

namespace StrikeMySQL

/-! ## Dynamic values and their `%v` rendering (Go standard library) -/

/-- A Go floating-point value, represented by the text that the `%v` verb of `fmt` prints
for it (shortest round-trip formatting of `strconv`, which lies outside the repository).
That text is never empty: it is a decimal numeral, `NaN`, `+Inf` or `-Inf`. -/
structure GoFloat where
  text : String
  text_ne : text ≠ ""

/-- A Go `time.Time`: the instant (`unixSec` seconds since 1970-01-01 00:00:00 UTC plus
`nsec` nanoseconds), the offset in seconds east of UTC that the value's location has at
that instant, the abbreviation of that zone, and the optional monotonic clock reading
in nanoseconds. -/
structure Time where
  unixSec : Int
  nsec : Nat
  offset : Int
  zone : String
  mono : Option Int

/-- The dynamic value held in an `interface{}`: `nil`, one of the kinds listed by
`isPrimitiveType`, or a value of any other type (given by its `%v` rendering). -/
inductive Value where
  | nil
  | int (n : Int)
  | int64 (n : Int)
  | float32 (f : GoFloat)
  | float64 (f : GoFloat)
  | str (s : String)
  | bool (b : Bool)
  | time (t : Time)
  | other (rendering : String)

/-- Decimal text of an integer as printed by `%v`: a minus sign for negative numbers,
then the decimal digits of the absolute value. -/
def formatInt (n : Int) : String :=
  if n < 0 then "-" ++ Nat.repr n.natAbs else Nat.repr n.natAbs

/-- Go `appendInt(b, x, width)` for a non-negative `x`: decimal digits, zero-padded on the
left to at least `width` characters. -/
def padNat (width n : Nat) : String :=
  String.mk (List.replicate (width - (Nat.repr n).length) '0') ++ Nat.repr n

/-- Go `appendInt(b, x, width)`: sign first, then the zero-padded absolute value. -/
def appendInt (x : Int) (width : Nat) : String :=
  if x < 0 then "-" ++ padNat width x.natAbs else padNat width x.natAbs

/-- Calendar fields of a point in time. -/
structure Civil where
  year : Int
  month : Int
  day : Int
  hour : Int
  minute : Int
  second : Int

/-- Proleptic Gregorian calendar date and time of day of the second `sec` counted from
1970-01-01 00:00:00 (the computation behind `Time.Date` and `Time.Clock`). -/
def civilOfSeconds (sec : Int) : Civil :=
  let days := sec / 86400
  let rem := sec % 86400
  let z := days + 719468
  let era := z / 146097
  let doe := z % 146097
  let yoe := (doe - doe / 1460 + doe / 36524 - doe / 146096) / 365
  let doy := doe - (365 * yoe + yoe / 4 - yoe / 100)
  let mp := (5 * doy + 2) / 153
  let d := doy - (153 * mp + 2) / 5 + 1
  let m := if mp < 10 then mp + 3 else mp - 9
  let y := yoe + era * 400 + (if m ≤ 2 then 1 else 0)
  { year := y, month := m, day := d,
    hour := rem / 3600, minute := rem % 3600 / 60, second := rem % 60 }

/-- The layout `2006-01-02 15:04:05` applied to calendar fields. -/
def formatDateTime (c : Civil) : String :=
  appendInt c.year 4 ++ "-" ++ appendInt c.month 2 ++ "-" ++ appendInt c.day 2 ++ " " ++
    appendInt c.hour 2 ++ ":" ++ appendInt c.minute 2 ++ ":" ++ appendInt c.second 2

/-- Go `Time.UTC`: the same instant, in the UTC location, without monotonic reading. -/
def Time.UTC (t : Time) : Time :=
  { unixSec := t.unixSec, nsec := t.nsec, offset := 0, zone := "UTC", mono := none }

/-- Go `Time.Format("2006-01-02 15:04:05")`: the calendar fields of the instant as seen in
the value's location. -/
def Time.Format (t : Time) : String :=
  formatDateTime (civilOfSeconds (t.unixSec + t.offset))

/-- Fractional seconds of the layout element `.999999999`: nothing when zero, otherwise a
dot and nine digits with the trailing zeros removed. -/
def formatFraction (nsec : Nat) : String :=
  if nsec = 0 then ""
  else "." ++ String.mk ((padNat 9 nsec).toList.reverse.dropWhile (fun c => c == '0')).reverse

/-- The layout element `-0700`: the offset in whole minutes (rounded toward zero), as
sign, hours and minutes. -/
def formatZoneOffset (offset : Int) : String :=
  let zone := Int.tdiv offset 60
  (if zone < 0 then "-" else "+") ++ padNat 2 (zone.natAbs / 60) ++ padNat 2 (zone.natAbs % 60)

/-- The monotonic clock suffix of `Time.String`. -/
def formatMono : Option Int → String
  | none => ""
  | some m =>
    " m=" ++ (if m < 0 then "-" else "+") ++ Nat.repr (m.natAbs / 1000000000) ++ "." ++
      padNat 9 (m.natAbs % 1000000000)

/-- Go `Time.String`, which `%v` prints for a `time.Time`: the layout
`2006-01-02 15:04:05.999999999 -0700 MST` followed by the monotonic reading. -/
def Time.String (t : Time) : String :=
  formatDateTime (civilOfSeconds (t.unixSec + t.offset)) ++ formatFraction t.nsec ++ " " ++
    formatZoneOffset t.offset ++ " " ++
    (if t.zone = "" then formatZoneOffset t.offset else t.zone) ++ formatMono t.mono

/-- The text `fmt.Sprintf("%v", v)`. -/
def sprintV : Value → String
  | .nil => "<nil>"
  | .int n => formatInt n
  | .int64 n => formatInt n
  | .float32 f => f.text
  | .float64 f => f.text
  | .str s => s
  | .bool b => if b then "true" else "false"
  | .time t => t.String
  | .other r => r

/-! ## The literal formatter -/

/-- The character class `[0-9]`. -/
def isAsciiDigit (c : Char) : Bool := decide ('0' ≤ c) && decide (c ≤ '9')

/-- The tail `[0-9]+$` of the numeric pattern. -/
def matchDigits1 : List Char → Bool
  | [] => false
  | [c] => isAsciiDigit c
  | c :: cs => isAsciiDigit c && matchDigits1 cs

/-- The remainder `[0-9]*(\.[0-9]+)?$` of the numeric pattern once a digit was read. -/
def matchAfterDigit : List Char → Bool
  | [] => true
  | c :: cs => if isAsciiDigit c then matchAfterDigit cs else c == '.' && matchDigits1 cs

/-- The anchored pattern `^[0-9]+(\.[0-9]+)?$` (`numericRegexpWithColon`) on a whole
text; in Go `$` matches only at the very end of the text. -/
def matchNumeric : List Char → Bool
  | [] => false
  | c :: cs => isAsciiDigit c && matchAfterDigit cs

def isNumericString (inputString : String) : Bool := matchNumeric inputString.toList

def isBooleanString (inputString : String) : Bool :=
  inputString == "true" || inputString == "false"

def isPrimitiveType : Value → Bool
  | .int _ | .int64 _ | .float32 _ | .float64 _ | .str _ | .bool _ | .time _ => true
  | _ => false

structure FieldWithValue where
  FieldName : String
  FieldValue : Value

/-- The comparison `value == nil` of an `interface{}`. -/
def Value.isNil : Value → Bool
  | .nil => true
  | _ => false

def FieldWithValue.printValue (fwv : FieldWithValue) : String :=
  let fwvToString := sprintV fwv.FieldValue
  if fwv.FieldValue.isNil || fwvToString == "" ||
      !isPrimitiveType fwv.FieldValue then
    ""
  else if isNumericString fwvToString || isBooleanString fwvToString then
    fwvToString
  else
    let fwvToString := match fwv.FieldValue with
      | .time t => t.UTC.Format
      | _ => fwvToString
    "'" ++ fwvToString ++ "'"

/-- Go `strings.Contains(s, ".")`. -/
def containsDot (s : String) : Bool := s.toList.contains '.'

def FieldWithValue.print (fwv : FieldWithValue) (table : String) : String :=
  if table == "" || containsDot fwv.FieldName then
    fwv.FieldName ++ " = " ++ fwv.printValue
  else
    table ++ "." ++ fwv.FieldName ++ " = " ++ fwv.printValue

/-! ## Clause renderers -/

/-- Loop of `printAllFieldWithValue`: `n` is `len(fields)`, `i` the index of the head of
the remaining fields, `retString` the text accumulated so far. -/
def printAllFieldWithValueLoop (table : String) (n : Nat) :
    Nat → List FieldWithValue → String → String
  | _, [], retString => retString
  | i, f :: fs, retString =>
    if i ≠ n - 1 then
      printAllFieldWithValueLoop table n (i + 1) fs (retString ++ (f.print table ++ " AND "))
    else
      printAllFieldWithValueLoop table n (i + 1) fs (retString ++ f.print table)

def printAllFieldWithValue (fields : List FieldWithValue) (fieldTable : List String) : String :=
  if fields.length = 0 then ""
  else
    let table := match fieldTable with
      | [t] => t
      | _ => ""
    printAllFieldWithValueLoop table fields.length 0 fields "WHERE "

/-- Loop of `printAllNewFieldWithValue`. -/
def printAllNewFieldWithValueLoop (n : Nat) : Nat → List FieldWithValue → String → String
  | _, [], retString => retString
  | i, f :: fs, retString =>
    if i ≠ n - 1 then
      printAllNewFieldWithValueLoop n (i + 1) fs (retString ++ (f.print "" ++ ", "))
    else
      printAllNewFieldWithValueLoop n (i + 1) fs (retString ++ f.print "")

def printAllNewFieldWithValue (fields : List FieldWithValue) : String :=
  printAllNewFieldWithValueLoop fields.length 0 fields ""

/-- The type `FieldName` is a string. -/
abbrev FieldName := String

def FieldName.print (fn : FieldName) : String := fn

/-- Loop of `printAllFieldsName`. -/
def printAllFieldsNameLoop (n : Nat) : Nat → List FieldName → String → String
  | _, [], retString => retString
  | i, f :: fs, retString =>
    if i ≠ n - 1 then
      printAllFieldsNameLoop n (i + 1) fs (retString ++ (FieldName.print f ++ ", "))
    else
      printAllFieldsNameLoop n (i + 1) fs (retString ++ FieldName.print f)

def printAllFieldsName (fields : List FieldName) : String :=
  if fields.length = 0 then "*"
  else printAllFieldsNameLoop fields.length 0 fields ""

structure FieldWithSorting where
  FieldName : String
  IsAscending : Bool

def FieldWithSorting.print (fws : FieldWithSorting) : String :=
  if fws.IsAscending then fws.FieldName ++ " ASC" else fws.FieldName ++ " DESC"

/-- Loop of `printAllFieldWithSorting`. -/
def printAllFieldWithSortingLoop (n : Nat) : Nat → List FieldWithSorting → String → String
  | _, [], retString => retString
  | i, f :: fs, retString =>
    if i ≠ n - 1 then
      printAllFieldWithSortingLoop n (i + 1) fs (retString ++ (f.print ++ ", "))
    else
      printAllFieldWithSortingLoop n (i + 1) fs (retString ++ f.print)

def printAllFieldWithSorting (fields : List FieldWithSorting) : String :=
  if fields.length = 0 then ""
  else printAllFieldWithSortingLoop fields.length 0 fields "ORDER BY "

structure JoinField where
  JoinFromTable : String
  JoinFromAttribute : String
  JoinToTable : String
  JoinToAttribute : String

def JoinField.print (jf : JoinField) : String :=
  "JOIN " ++ jf.JoinToTable ++ " ON " ++ jf.JoinFromTable ++ "." ++ jf.JoinFromAttribute ++
    " = " ++ jf.JoinToTable ++ "." ++ jf.JoinToAttribute

/-- Loop of `printAllJoinFields`. -/
def printAllJoinFieldsLoop (n : Nat) : Nat → List JoinField → String → String
  | _, [], retString => retString
  | i, f :: fs, retString =>
    if i ≠ n - 1 then
      printAllJoinFieldsLoop n (i + 1) fs (retString ++ (f.print ++ " "))
    else
      printAllJoinFieldsLoop n (i + 1) fs (retString ++ f.print)

def printAllJoinFields (fields : List JoinField) : String :=
  printAllJoinFieldsLoop fields.length 0 fields ""

/-! ## Statement templates -/

def MakeDeleteQuery (tableName : String) (filter : List FieldWithValue) : String :=
  "DELETE FROM " ++ tableName ++ " " ++ printAllFieldWithValue filter [] ++ ";"

def MakeSelectQuery (selectionFields : List FieldName) (tableName : String)
    (filterFields : List FieldWithValue) (sortingFields : List FieldWithSorting)
    (joinFields : List JoinField) : String :=
  "SELECT " ++ printAllFieldsName selectionFields ++ " FROM " ++ tableName ++ " " ++
    printAllJoinFields joinFields ++ " " ++ printAllFieldWithValue filterFields [tableName] ++
    " " ++ printAllFieldWithSorting sortingFields ++ ";"

def MakeUpdateQuery (tableName : String) (newValues : List FieldWithValue)
    (filter : List FieldWithValue) (joinFields : List JoinField) : String :=
  "UPDATE " ++ tableName ++ " SET " ++ printAllNewFieldWithValue newValues ++ " " ++
    printAllFieldWithValue filter [] ++ " " ++ printAllJoinFields joinFields ++ ";"

/-- Loop of `splitFieldsAndValues`: `i` is the index of the head of the remaining fields,
the pair holds `fieldsName` and `fieldsValue`. -/
def splitFieldsAndValuesLoop : Nat → List FieldWithValue → String × String → String × String
  | _, [], acc => acc
  | i, actual :: rest, (fieldsName, fieldsValue) =>
    let val := actual.printValue
    if val ≠ "" then
      if i ≠ 0 ∧ fieldsName ≠ "" then
        splitFieldsAndValuesLoop (i + 1) rest
          (fieldsName ++ ", " ++ actual.FieldName, fieldsValue ++ ", " ++ val)
      else
        splitFieldsAndValuesLoop (i + 1) rest (fieldsName ++ actual.FieldName, fieldsValue ++ val)
    else
      splitFieldsAndValuesLoop (i + 1) rest (fieldsName, fieldsValue)

def splitFieldsAndValues (fusedValues : List FieldWithValue) : String × String :=
  splitFieldsAndValuesLoop 0 fusedValues ("", "")

def MakeInsertQuery (tableName : String) (newValues : List FieldWithValue) : String :=
  let (fieldsName, fieldsValue) := splitFieldsAndValues newValues
  "INSERT INTO " ++ tableName ++ " (" ++ fieldsName ++ ") VALUES (" ++ fieldsValue ++ ");"

/-! ## Text splitting (Go `strings` package) -/

/-- The text before the first occurrence of `sep` and the text after it, if `sep` occurs
(`strings.Index` followed by the two slices that `strings.Split` takes). -/
def cut (sep : List Char) : List Char → Option (List Char × List Char)
  | [] => if sep.isEmpty then some ([], []) else none
  | c :: cs =>
    if sep.isPrefixOf (c :: cs) then some ([], (c :: cs).drop sep.length)
    else (cut sep cs).map (fun p => (c :: p.1, p.2))

/-- The pieces of `s` between the successive occurrences of a non-empty `sep`, found from
left to right; `fuel` bounds the number of occurrences. -/
def splitFuel (sep : List Char) : Nat → List Char → List (List Char)
  | 0, s => [s]
  | fuel + 1, s =>
    match cut sep s with
    | none => [s]
    | some (before, after) => before :: splitFuel sep fuel after

/-- Go `strings.Split(s, sep)` for a non-empty separator. -/
def Split (s sep : String) : List String :=
  (splitFuel sep.toList s.length s.toList).map String.mk

/-- Go `strings.Contains(s, substr)`. -/
def Contains (s substr : String) : Bool := (cut substr.toList s.toList).isSome

/-- Go `strings.ToLower`: every character mapped by `unicode.ToLower`, here `lower`. -/
def ToLower (lower : Char → Char) (s : String) : String := String.mk (s.toList.map lower)

/-- Go `strings.TrimSpace`: leading and trailing white space (`unicode.IsSpace`, here
`isSpace`) removed. -/
def TrimSpace (isSpace : Char → Bool) (s : String) : String :=
  String.mk ((s.toList.dropWhile isSpace).reverse.dropWhile isSpace).reverse

/-! ## Merging INSERT statements -/

/-- Loop of `MergeManyInsertsIntoOneInsert` over `queries[1:]`; `none` is the run-time
panic of an index out of range. -/
def mergeLoop : List String → String → Option String
  | [], query => some query
  | q :: rest, query =>
    match (Split q "VALUES")[1]? with
    | none => none
    | some queryAttributes =>
      match (Split queryAttributes ";")[0]? with
      | none => none
      | some tuple => mergeLoop rest (query ++ tuple)

/-- The function `MergeManyInsertsIntoOneInsert`; `none` is the run-time panic of an index
out of range. -/
def MergeManyInsertsIntoOneInsert (queries : List String) : Option String :=
  match queries with
  | [] => none
  | first :: rest =>
    match (Split first ";")[0]? with
    | none => none
    | some query =>
      match mergeLoop rest query with
      | none => none
      | some query => some (query ++ ";")

/-! ## Projection of a record -/

/-- Tuple is an internal struct used to store two values in a single structure. -/
structure Tuple where
  Name : String
  Value : Value

/-- What reflection shows of the value of a struct field: a value of kind `string` (with
the text `value.String()`), of kind `int` (with the number `value.Int()`), or of any other
kind (with the dynamic value `value.Interface()`). -/
inductive FieldContent where
  | string (s : String)
  | int (n : Int)
  | other (v : Value)

/-- A field of a struct as `reflect` presents it: declared name (an identifier, hence not
empty), whether that name is exported, the values of the `json` and `db` keys of its tag
(empty when absent), and its content. -/
structure StructField where
  Name : String
  Name_ne : Name ≠ ""
  Exported : Bool
  json : String
  db : String
  content : FieldContent

/-- The tag text that `breakDownStruct` reads: the `json` key, or the `db` key when the
`json` key is empty. -/
def StructField.structTag (fld : StructField) : String :=
  if fld.json == "" then fld.db else fld.json

/-- Go `v.FieldByName(name)` on a struct value: the first field of the record that has
this name. -/
def FieldByName (st : List StructField) (name : String) : Option StructField :=
  st.find? (fun f => f.Name == name)

/-- Loop of `breakDownStruct` over the fields `t.Field(i)` of the record `st`, with
`reqRules` accumulated. Name and tag are those of the field itself; kind, value and
access are those of `v.FieldByName(t.Field(i).Name)`. The result `none` is a run-time
panic: an index out of range, or `value.Interface()` on a value that was not found or
was read from a field that is not exported. -/
def breakDownStructLoop (lower : Char → Char) (isSpace : Char → Bool) (st : List StructField) :
    List StructField → List Tuple → Option (List Tuple)
  | [], reqRules => some reqRules
  | fld :: rest, reqRules =>
    let key := ToLower lower fld.Name
    match FieldByName st fld.Name with
    | none => none
    | some value =>
      let structTag := fld.structTag
      match (Split structTag ",")[0]? with
      | none => none
      | some first =>
        let jsonName := TrimSpace isSpace first
        let key := if jsonName ≠ "" ∧ jsonName ≠ "-" then jsonName else key
        match value.content with
        | .string s =>
          if !(s == "" && Contains structTag "omitempty") then
            breakDownStructLoop lower isSpace st rest (reqRules ++ [⟨key, .str s⟩])
          else
            breakDownStructLoop lower isSpace st rest reqRules
        | .int n => breakDownStructLoop lower isSpace st rest (reqRules ++ [⟨key, .int64 n⟩])
        | .other v =>
          if value.Exported then
            breakDownStructLoop lower isSpace st rest (reqRules ++ [⟨key, v⟩])
          else none

def breakDownStruct (lower : Char → Char) (isSpace : Char → Bool) (st : List StructField) :
    Option (List Tuple) :=
  breakDownStructLoop lower isSpace st st []

def MakeInsertQueryWithStruct (lower : Char → Char) (isSpace : Char → Bool)
    (tableName : String) (str : List StructField) : Option String :=
  match breakDownStruct lower isSpace str with
  | none => none
  | some structTuples =>
    let fields := structTuples.foldl
      (fun fields tuple => fields ++ [FieldWithValue.mk tuple.Name tuple.Value]) []
    some (MakeInsertQuery tableName fields)

/-! ## Notions used to state the properties -/

/-- The piece of a text before the first occurrence of `sep`, the whole text when `sep`
does not occur: element 0 of the split. -/
def firstPiece (sep s : List Char) : List Char :=
  match cut sep s with
  | some p => p.1
  | none => s

/-- The name under which a field is projected: its alias, the trimmed text before the
first `,` of its `json` tag (of its `db` tag when the `json` tag is empty), when that is
neither empty nor `-`; otherwise its declared name in lower case. -/
def projectedName (lower : Char → Char) (isSpace : Char → Bool) (fld : StructField) : String :=
  if TrimSpace isSpace (String.mk ((if fld.json = "" then fld.db else fld.json).toList.takeWhile
        (fun c => decide (c ≠ ',')))) ≠ "" ∧
      TrimSpace isSpace (String.mk ((if fld.json = "" then fld.db else fld.json).toList.takeWhile
        (fun c => decide (c ≠ ',')))) ≠ "-" then
    TrimSpace isSpace (String.mk ((if fld.json = "" then fld.db else fld.json).toList.takeWhile
      (fun c => decide (c ≠ ','))))
  else ToLower lower fld.Name

/-- The value that a field read by reflection is projected with: the text of a field of
kind string, the number of a field of kind int as an int64, the dynamic value of any
other field. -/
def projectedValue (value : StructField) : Value :=
  match value.content with
  | .string s => .str s
  | .int n => .int64 n
  | .other v => v

/-- The fields that reflection can read: those of kind string or int, and the exported
ones of the other kinds. -/
def readable (value : StructField) : Bool :=
  match value.content with
  | .other _ => value.Exported
  | _ => true

/-- The value that the projection gives to the field `fld` of the record `st`: that of
the first field of `st` named like `fld`. -/
def valueIn (st : List StructField) (fld : StructField) : Value :=
  match FieldByName st fld.Name with
  | some value => projectedValue value
  | none => .nil

/-- Whether reflection can read the value looked up for the field `fld` of `st`. -/
def readableIn (st : List StructField) (fld : StructField) : Bool :=
  match FieldByName st fld.Name with
  | some value => readable value
  | none => false

/-- The fields of `st` that the projection leaves out: the value looked up is of kind
string and empty, and `omitempty` occurs in the tag text of the field. -/
def droppedIn (st : List StructField) (fld : StructField) : Bool :=
  match FieldByName st fld.Name with
  | some value =>
    match value.content with
    | .string s => s == "" && Contains fld.structTag "omitempty"
    | _ => false
  | none => false

/-- The literal that the INSERT statement gives to the field `fld` of `st`. -/
def literalIn (st : List StructField) (fld : StructField) : String :=
  (FieldWithValue.mk "" (valueIn st fld)).printValue

/-- The text contains neither the character `;` nor the text `VALUES`. -/
def Plain (s : String) : Prop := ';' ∉ s.toList ∧ ¬ "VALUES".toList <:+: s.toList

/-- The text that the merge takes from a statement after the first: what follows the
first `VALUES`, up to the next `VALUES` and up to the first `;`. -/
def tupleOf (q : String) : Option String :=
  (cut "VALUES".toList q.toList).map
    (fun p => String.mk (firstPiece [';'] (firstPiece "VALUES".toList p.2)))

/-- The fields that `splitFieldsAndValues` keeps: those whose literal is non-empty. -/
def keptFields (l : List FieldWithValue) : List FieldWithValue :=
  l.filter (fun f => decide (f.printValue ≠ ""))

/-- The shape "one or more ASCII digits, optionally followed by a single `.` and one or
more ASCII digits". -/
def NumericShape (s : String) : Prop :=
  ∃ a b : List Char, a ≠ [] ∧ (∀ c ∈ a, '0' ≤ c ∧ c ≤ '9') ∧
    (s.toList = a ∨ (b ≠ [] ∧ (∀ c ∈ b, '0' ≤ c ∧ c ≤ '9') ∧ s.toList = a ++ '.' :: b))

end StrikeMySQL

namespace StrikeMySQL

/-! ## Auxiliary facts about strings -/

theorem intercalate_go_append (sep acc x : String) (l : List String) :
    String.intercalate.go (acc ++ x) sep l = acc ++ String.intercalate.go x sep l := by
  induction l generalizing x with
  | nil => simp [String.intercalate.go]
  | cons a as ih =>
    simp only [String.intercalate.go]
    rw [← ih]
    simp [String.append_assoc]

theorem intercalate_cons_cons (sep a b : String) (l : List String) :
    sep.intercalate (a :: b :: l) = a ++ sep ++ sep.intercalate (b :: l) := by
  simp only [String.intercalate, String.intercalate.go]
  rw [intercalate_go_append]

theorem intercalate_singleton (sep a : String) : sep.intercalate [a] = a := by
  simp [String.intercalate, String.intercalate.go]

theorem ne_empty_of_mem {s : String} {c : Char} (h : c ∈ s.toList) : s ≠ "" := by
  intro hs
  subst hs
  have h0 : "".toList = [] := rfl
  rw [h0] at h
  cases h

theorem append_ne_empty_left {a : String} (b : String) (h : a ≠ "") : a ++ b ≠ "" := by
  intro hab
  apply h
  have h2 := congrArg String.length hab
  simp only [String.length_append] at h2
  have h3 : a.length = 0 := by
    have : "".length = 0 := rfl
    omega
  cases a with
  | mk d =>
    have hd : d = [] := List.length_eq_zero.mp h3
    subst hd
    rfl

theorem quoted_ne_empty (s : String) : "'" ++ s ++ "'" ≠ "" := by
  intro h
  have h2 := congrArg String.length h
  simp only [String.length_append] at h2
  have : "'".length = 1 := rfl
  have : "".length = 0 := rfl
  omega

theorem quoted_ne_self (s : String) : "'" ++ s ++ "'" ≠ s := by
  intro h
  have h2 := congrArg String.length h
  simp only [String.length_append] at h2
  have : "'".length = 1 := rfl
  omega

/-! ## The separator loops -/

theorem printAllFieldWithValueLoop_eq (table : String) (n : Nat) (fs : List FieldWithValue) :
    ∀ (i : Nat) (acc : String), fs ≠ [] → i + fs.length = n →
      printAllFieldWithValueLoop table n i fs acc =
        acc ++ " AND ".intercalate (fs.map (fun f => f.print table)) := by
  induction fs with
  | nil => intro i acc h; exact absurd rfl h
  | cons f rest ih =>
    intro i acc _ hlen
    cases rest with
    | nil =>
      have hi : i = n - 1 := by simp at hlen; omega
      simp [printAllFieldWithValueLoop, hi, intercalate_singleton]
    | cons g rest2 =>
      have hi : i ≠ n - 1 := by simp at hlen; omega
      have hrec := ih (i + 1) (acc ++ (f.print table ++ " AND ")) (by simp)
        (by simp at hlen ⊢; omega)
      rw [printAllFieldWithValueLoop, if_pos hi, hrec]
      simp only [List.map_cons]
      rw [intercalate_cons_cons]
      simp [String.append_assoc]

theorem printAllNewFieldWithValueLoop_eq (n : Nat) (fs : List FieldWithValue) :
    ∀ (i : Nat) (acc : String), fs ≠ [] → i + fs.length = n →
      printAllNewFieldWithValueLoop n i fs acc =
        acc ++ ", ".intercalate (fs.map (fun f => f.print "")) := by
  induction fs with
  | nil => intro i acc h; exact absurd rfl h
  | cons f rest ih =>
    intro i acc _ hlen
    cases rest with
    | nil =>
      have hi : i = n - 1 := by simp at hlen; omega
      simp [printAllNewFieldWithValueLoop, hi, intercalate_singleton]
    | cons g rest2 =>
      have hi : i ≠ n - 1 := by simp at hlen; omega
      have hrec := ih (i + 1) (acc ++ (f.print "" ++ ", ")) (by simp)
        (by simp at hlen ⊢; omega)
      rw [printAllNewFieldWithValueLoop, if_pos hi, hrec]
      simp only [List.map_cons]
      rw [intercalate_cons_cons]
      simp [String.append_assoc]

theorem printAllFieldsNameLoop_eq (n : Nat) (fs : List FieldName) :
    ∀ (i : Nat) (acc : String), fs ≠ [] → i + fs.length = n →
      printAllFieldsNameLoop n i fs acc = acc ++ ", ".intercalate fs := by
  induction fs with
  | nil => intro i acc h; exact absurd rfl h
  | cons f rest ih =>
    intro i acc _ hlen
    cases rest with
    | nil =>
      have hi : i = n - 1 := by simp at hlen; omega
      simp [printAllFieldsNameLoop, hi, intercalate_singleton, FieldName.print]
    | cons g rest2 =>
      have hi : i ≠ n - 1 := by simp at hlen; omega
      have hrec := ih (i + 1) (acc ++ (FieldName.print f ++ ", ")) (by simp)
        (by simp at hlen ⊢; omega)
      rw [printAllFieldsNameLoop, if_pos hi, hrec, intercalate_cons_cons]
      simp [String.append_assoc, FieldName.print]

theorem printAllFieldWithValue_eq (fs : List FieldWithValue) (table : String) (h : fs ≠ []) :
    printAllFieldWithValue fs [table] =
      "WHERE " ++ " AND ".intercalate (fs.map (fun f => f.print table)) := by
  have hl : fs.length ≠ 0 := by simpa using h
  simp only [printAllFieldWithValue, hl, if_false]
  exact printAllFieldWithValueLoop_eq table fs.length fs 0 "WHERE " h (by simp)

theorem printAllFieldWithValue_nil_table (fs : List FieldWithValue) (h : fs ≠ []) :
    printAllFieldWithValue fs [] =
      "WHERE " ++ " AND ".intercalate (fs.map (fun f => f.print "")) := by
  have hl : fs.length ≠ 0 := by simpa using h
  simp only [printAllFieldWithValue, hl, if_false]
  exact printAllFieldWithValueLoop_eq "" fs.length fs 0 "WHERE " h (by simp)

theorem printAllNewFieldWithValue_eq (fs : List FieldWithValue) :
    printAllNewFieldWithValue fs = ", ".intercalate (fs.map (fun f => f.print "")) := by
  cases fs with
  | nil => simp [printAllNewFieldWithValue, printAllNewFieldWithValueLoop, String.intercalate]
  | cons f rest =>
    have := printAllNewFieldWithValueLoop_eq (f :: rest).length (f :: rest) 0 "" (by simp)
      (by simp)
    simpa [printAllNewFieldWithValue] using this

theorem printAllFieldsName_eq (fs : List FieldName) (h : fs ≠ []) :
    printAllFieldsName fs = ", ".intercalate fs := by
  have hl : fs.length ≠ 0 := by simpa using h
  simp only [printAllFieldsName, hl, if_false]
  have := printAllFieldsNameLoop_eq fs.length fs 0 "" h (by simp)
  simpa using this

/-! ## INSERT: pairing of column names and literals -/

theorem splitFieldsAndValuesLoop_cons (i : Nat) (actual : FieldWithValue)
    (rest : List FieldWithValue) (fieldsName fieldsValue : String) :
    splitFieldsAndValuesLoop i (actual :: rest) (fieldsName, fieldsValue) =
      if actual.printValue ≠ "" then
        if i ≠ 0 ∧ fieldsName ≠ "" then
          splitFieldsAndValuesLoop (i + 1) rest
            (fieldsName ++ ", " ++ actual.FieldName, fieldsValue ++ ", " ++ actual.printValue)
        else
          splitFieldsAndValuesLoop (i + 1) rest
            (fieldsName ++ actual.FieldName, fieldsValue ++ actual.printValue)
      else
        splitFieldsAndValuesLoop (i + 1) rest (fieldsName, fieldsValue) := by
  rw [splitFieldsAndValuesLoop]

theorem keptFields_cons_of_empty (a : FieldWithValue) (rest : List FieldWithValue)
    (h : a.printValue = "") : keptFields (a :: rest) = keptFields rest := by
  simp [keptFields, h]

theorem keptFields_cons_of_ne (a : FieldWithValue) (rest : List FieldWithValue)
    (h : a.printValue ≠ "") : keptFields (a :: rest) = a :: keptFields rest := by
  simp [keptFields, h]

/-- Fields without a literal leave the accumulated texts untouched. -/
theorem splitFieldsAndValuesLoop_skip (rest : List FieldWithValue) :
    ∀ (i : Nat) (acc : String × String), keptFields rest = [] →
      splitFieldsAndValuesLoop i rest acc = acc := by
  induction rest with
  | nil => intro i acc _; rw [splitFieldsAndValuesLoop]
  | cons a rest ih =>
    intro i acc hk
    by_cases ha : a.printValue = ""
    · rw [keptFields_cons_of_empty a rest ha] at hk
      obtain ⟨fn, fv⟩ := acc
      rw [splitFieldsAndValuesLoop_cons, if_neg (by simpa using ha)]
      exact ih (i + 1) (fn, fv) hk
    · rw [keptFields_cons_of_ne a rest ha] at hk
      exact absurd hk (by simp)

/-- Once a non-empty column text has been accumulated, every kept field is appended after
a separator, to both texts. -/
theorem splitFieldsAndValuesLoop_sep (rest : List FieldWithValue) :
    ∀ (i : Nat) (fn fv : String), i ≠ 0 → fn ≠ "" →
      splitFieldsAndValuesLoop i rest (fn, fv) =
        (String.intercalate.go fn ", " ((keptFields rest).map (fun f => f.FieldName)),
         String.intercalate.go fv ", " ((keptFields rest).map (fun f => f.printValue))) := by
  induction rest with
  | nil => intro i fn fv _ _; rw [splitFieldsAndValuesLoop]; rfl
  | cons a rest ih =>
    intro i fn fv hi hfn
    by_cases ha : a.printValue = ""
    · rw [keptFields_cons_of_empty a rest ha, splitFieldsAndValuesLoop_cons,
        if_neg (by simpa using ha)]
      exact ih (i + 1) fn fv (by omega) hfn
    · rw [keptFields_cons_of_ne a rest ha, splitFieldsAndValuesLoop_cons, if_pos ha,
        if_pos ⟨hi, hfn⟩]
      rw [ih (i + 1) _ _ (by omega)
        (by rw [String.append_assoc]; exact append_ne_empty_left _ hfn)]
      rfl

theorem splitFieldsAndValuesLoop_start (rest : List FieldWithValue) :
    ∀ (i : Nat), (∀ f g r, keptFields rest = f :: g :: r → f.FieldName ≠ "") →
      splitFieldsAndValuesLoop i rest ("", "") =
        (", ".intercalate ((keptFields rest).map (fun f => f.FieldName)),
         ", ".intercalate ((keptFields rest).map (fun f => f.printValue))) := by
  induction rest with
  | nil => intro i _; rw [splitFieldsAndValuesLoop]; rfl
  | cons a rest ih =>
    intro i h
    by_cases ha : a.printValue = ""
    · rw [keptFields_cons_of_empty a rest ha] at h ⊢
      rw [splitFieldsAndValuesLoop_cons, if_neg (by simpa using ha)]
      exact ih (i + 1) h
    · rw [keptFields_cons_of_ne a rest ha] at h ⊢
      have hno : ¬ (i ≠ 0 ∧ ("" : String) ≠ "") := fun hc => hc.2 rfl
      rw [splitFieldsAndValuesLoop_cons, if_pos ha, if_neg hno, String.empty_append,
        String.empty_append]
      cases hk : keptFields rest with
      | nil =>
        rw [splitFieldsAndValuesLoop_skip rest (i + 1) _ hk]
        simp [intercalate_singleton]
      | cons g r =>
        have hname : a.FieldName ≠ "" := h a g r (by rw [hk])
        rw [splitFieldsAndValuesLoop_sep rest (i + 1) _ _ (by omega) hname, hk]
        rfl

end StrikeMySQL

namespace StrikeMySQL

/-! ## Statements: INSERT, UPDATE and SELECT -/

/-- C1 (as stated, refuted): with the fields `{"": 1}` and `{"b": 2}` both literals are
kept, yet `MakeInsertQuery` returns `INSERT INTO t (b) VALUES (12);`, which is not the
statement built from the kept names joined by `", "` and the kept literals joined by
`", "`. -/
theorem MakeInsertQuery_empty_name_counterexample :
    MakeInsertQuery "t" [⟨"", .int 1⟩, ⟨"b", .int 2⟩] = "INSERT INTO t (b) VALUES (12);" ∧
    MakeInsertQuery "t" [⟨"", .int 1⟩, ⟨"b", .int 2⟩] ≠
      "INSERT INTO " ++ "t" ++ " (" ++
        ", ".intercalate ((keptFields [⟨"", .int 1⟩, ⟨"b", .int 2⟩]).map (·.FieldName)) ++
        ") VALUES (" ++
        ", ".intercalate ((keptFields [⟨"", .int 1⟩, ⟨"b", .int 2⟩]).map (·.printValue)) ++
        ");" := by
  decide

/-- C1 (amended): for every table name and every list of NamedValues in which at most one
field has a non-empty literal or the first field with a non-empty literal has a non-empty
name, `MakeInsertQuery` returns `INSERT INTO table (N) VALUES (V);` where `K` is the
sub-list, in input order, of the fields whose literal is non-empty, `N` the names of `K`
joined by `", "` and `V` the literals of `K` joined by `", "`; both lists have the same
number of entries. -/
theorem MakeInsertQuery_eq (tableName : String) (newValues : List FieldWithValue)
    (h : (keptFields newValues).length ≤ 1 ∨
      ((keptFields newValues).map (·.FieldName)).head? ≠ some "") :
    MakeInsertQuery tableName newValues =
        "INSERT INTO " ++ tableName ++ " (" ++
          ", ".intercalate ((keptFields newValues).map (·.FieldName)) ++ ") VALUES (" ++
          ", ".intercalate ((keptFields newValues).map (·.printValue)) ++ ");" ∧
      ((keptFields newValues).map (·.FieldName)).length =
        ((keptFields newValues).map (·.printValue)).length ∧
      keptFields newValues = newValues.filter (fun f => decide (f.printValue ≠ "")) := by
  have hfirst : ∀ f g r, keptFields newValues = f :: g :: r → f.FieldName ≠ "" := by
    intro f g r hk hf
    rw [hk] at h
    rcases h with h | h
    · simp at h
    · simp [hf] at h
  refine ⟨?_, by simp, rfl⟩
  simp only [MakeInsertQuery, splitFieldsAndValues]
  rw [splitFieldsAndValuesLoop_start newValues 0 hfirst]

/-- C1 witness: the statement of `TestInsertQueryBasic`. -/
theorem MakeInsertQuery_eq_witness :
    MakeInsertQuery "goats"
        [⟨"name", .str "Leo"⟩, ⟨"surname", .str "Messi"⟩, ⟨"is_left", .bool true⟩,
          ⟨"height_in_meters", .float64 ⟨"1.64", by decide⟩⟩, ⟨"empty_strting", .str ""⟩,
          ⟨"nilValue", .nil⟩] =
      "INSERT INTO " ++ "goats" ++ " (" ++
        ", ".intercalate ["name", "surname", "is_left", "height_in_meters"] ++ ") VALUES (" ++
        ", ".intercalate ["'Leo'", "'Messi'", "true", "1.64"] ++ ");" :=
  (MakeInsertQuery_eq "goats"
    [⟨"name", .str "Leo"⟩, ⟨"surname", .str "Messi"⟩, ⟨"is_left", .bool true⟩,
      ⟨"height_in_meters", .float64 ⟨"1.64", by decide⟩⟩, ⟨"empty_strting", .str ""⟩,
      ⟨"nilValue", .nil⟩] (by decide)).1

/-- Without join fields, the UPDATE template leaves the space of the empty join clause
between the filter clause and the semicolon. -/
theorem MakeUpdateQuery_no_join (tableName : String) (newValues filter : List FieldWithValue)
    (hf : filter ≠ []) :
    MakeUpdateQuery tableName newValues filter [] =
      "UPDATE " ++ tableName ++ " SET " ++
        ", ".intercalate (newValues.map (fun f => f.FieldName ++ " = " ++ f.printValue)) ++ " " ++
        ("WHERE " ++
          " AND ".intercalate (filter.map (fun f => f.FieldName ++ " = " ++ f.printValue))) ++
        " ;" := by
  have hp : ∀ f : FieldWithValue, f.print "" = f.FieldName ++ " = " ++ f.printValue := by
    intro f
    simp [FieldWithValue.print]
  simp only [MakeUpdateQuery, printAllNewFieldWithValue_eq,
    printAllFieldWithValue_nil_table filter hf, hp]
  simp [printAllJoinFields, printAllJoinFieldsLoop, String.append_assoc]

/-- C7: on the input of `TestUpdateQueryBasic`, `MakeUpdateQuery` returns a statement with a
space between the filter clause and the semicolon, not the statement that the test and
the doc comment give. -/
theorem MakeUpdateQuery_test_input :
    MakeUpdateQuery "all_time_scorers"
        [⟨"name", .str "Cristiano"⟩, ⟨"surname", .str "Ronaldo"⟩] [⟨"name", .str "Pele"⟩] [] =
      "UPDATE all_time_scorers SET name = 'Cristiano', surname = 'Ronaldo' WHERE name = 'Pele' ;" ∧
    MakeUpdateQuery "all_time_scorers"
        [⟨"name", .str "Cristiano"⟩, ⟨"surname", .str "Ronaldo"⟩] [⟨"name", .str "Pele"⟩] [] ≠
      "UPDATE all_time_scorers SET name = 'Cristiano', surname = 'Ronaldo' WHERE name = 'Pele';" := by
  decide

/-- C8: for a non-empty table name `t` and a non-empty filter list, the filter clause of the
statement returned by `MakeSelectQuery` is `WHERE ` followed by the filter renders joined by
` AND ` in input order; a filter whose name contains a `.` is rendered `name = literal`,
every other filter `t.name = literal`. -/
theorem MakeSelectQuery_filter_clause (selectionFields : List FieldName) (t : String)
    (filterFields : List FieldWithValue) (sortingFields : List FieldWithSorting)
    (joinFields : List JoinField) (ht : t ≠ "") (hf : filterFields ≠ []) :
    MakeSelectQuery selectionFields t filterFields sortingFields joinFields =
      "SELECT " ++ printAllFieldsName selectionFields ++ " FROM " ++ t ++ " " ++
        printAllJoinFields joinFields ++ " " ++
        ("WHERE " ++ " AND ".intercalate (filterFields.map (fun f =>
          if '.' ∈ f.FieldName.toList then f.FieldName ++ " = " ++ f.printValue
          else t ++ "." ++ f.FieldName ++ " = " ++ f.printValue))) ++
        " " ++ printAllFieldWithSorting sortingFields ++ ";" := by
  have hp : ∀ f : FieldWithValue, f.print t =
      if '.' ∈ f.FieldName.toList then f.FieldName ++ " = " ++ f.printValue
      else t ++ "." ++ f.FieldName ++ " = " ++ f.printValue := by
    intro f
    have ht2 : (t == "") = false := by simpa using ht
    by_cases hd : '.' ∈ f.FieldName.toList
    · have hd2 : '.' ∈ f.FieldName.data := hd
      simp [FieldWithValue.print, containsDot, hd2]
    · have hd2 : '.' ∉ f.FieldName.data := hd
      simp [FieldWithValue.print, containsDot, hd2, ht2]
  simp only [MakeSelectQuery, printAllFieldWithValue_eq filterFields t hf, hp]

/-- C8 witness: the filter of `TestSelectQueryBasic` together with a qualified name. -/
theorem MakeSelectQuery_filter_clause_witness :
    MakeSelectQuery ["name"] "players" [⟨"height", .str "1.64"⟩, ⟨"clubs.id", .int 7⟩]
        [⟨"name", true⟩] [] =
      "SELECT " ++ printAllFieldsName ["name"] ++ " FROM " ++ "players" ++ " " ++
        printAllJoinFields [] ++ " " ++
        ("WHERE " ++ " AND ".intercalate
          (([⟨"height", .str "1.64"⟩, ⟨"clubs.id", .int 7⟩] : List FieldWithValue).map (fun f =>
          if '.' ∈ f.FieldName.toList then f.FieldName ++ " = " ++ f.printValue
          else "players" ++ "." ++ f.FieldName ++ " = " ++ f.printValue))) ++
        " " ++ printAllFieldWithSorting [⟨"name", true⟩] ++ ";" :=
  MakeSelectQuery_filter_clause ["name"] "players"
    [⟨"height", .str "1.64"⟩, ⟨"clubs.id", .int 7⟩] [⟨"name", true⟩] [] (by decide) (by simp)

set_option maxRecDepth 8000 in
/-- C9 (as stated, refuted): on the example of its doc comment `MakeSelectQuery` does not
return the statement written there, whose filter is the unqualified `height = 1.70`. -/
theorem MakeSelectQuery_doc_example_counterexample :
    MakeSelectQuery ["name", "surname", "golden_boot_year"] "players"
        [⟨"height", .str "1.70"⟩] [⟨"name", true⟩]
        [⟨"players", "id", "golden_boots", "player_who_won_it_id"⟩] ≠
      "SELECT name, surname, golden_boot_year FROM players JOIN golden_boots ON players.id = golden_boots.player_who_won_it_id WHERE height = 1.70 ORDER BY name ASC;" := by
  decide

set_option maxRecDepth 8000 in
/-- C9 (amended): on the example of its doc comment `MakeSelectQuery` returns the statement
whose filter is qualified by the table name, `players.height = 1.70`. -/
theorem MakeSelectQuery_doc_example :
    MakeSelectQuery ["name", "surname", "golden_boot_year"] "players"
        [⟨"height", .str "1.70"⟩] [⟨"name", true⟩]
        [⟨"players", "id", "golden_boots", "player_who_won_it_id"⟩] =
      "SELECT name, surname, golden_boot_year FROM players JOIN golden_boots ON players.id = golden_boots.player_who_won_it_id WHERE players.height = 1.70 ORDER BY name ASC;" := by
  decide

/-- C10: with empty filter, sorting and join lists `MakeSelectQuery` returns
`SELECT P FROM t   ;`, three spaces before the semicolon and no other clause text, where
`P` is `*` for an empty projection list and the names joined by `", "` otherwise. -/
theorem MakeSelectQuery_empty_clauses (p : List FieldName) (t : String) :
    MakeSelectQuery p t [] [] [] =
      "SELECT " ++ (if p = [] then "*" else ", ".intercalate p) ++ " FROM " ++ t ++ "   ;" := by
  have hP : printAllFieldsName p = if p = [] then "*" else ", ".intercalate p := by
    by_cases hp : p = []
    · subst hp
      rfl
    · rw [if_neg hp]
      exact printAllFieldsName_eq p hp
  simp only [MakeSelectQuery, hP]
  simp [printAllJoinFields, printAllJoinFieldsLoop, printAllFieldWithValue,
    printAllFieldWithSorting, String.append_assoc]

end StrikeMySQL

namespace StrikeMySQL

/-! ## The numeric pattern and decimal numerals -/

theorem isAsciiDigit_digitChar (n : Nat) (h : n < 10) : isAsciiDigit (Nat.digitChar n) = true := by
  interval_cases n <;> decide

theorem toDigitsCore_all_digits (fuel : Nat) :
    ∀ (n : Nat) (ds : List Char), (∀ c ∈ ds, isAsciiDigit c = true) →
      ∀ c ∈ Nat.toDigitsCore 10 fuel n ds, isAsciiDigit c = true := by
  induction fuel with
  | zero => intro n ds h c hc; exact h c (by simpa [Nat.toDigitsCore] using hc)
  | succ fuel ih =>
    intro n ds h c hc
    have hd : isAsciiDigit (Nat.digitChar (n % 10)) = true :=
      isAsciiDigit_digitChar _ (Nat.mod_lt _ (by decide))
    have hall : ∀ c ∈ Nat.digitChar (n % 10) :: ds, isAsciiDigit c = true := by
      intro c hc
      rcases List.mem_cons.mp hc with rfl | hc
      · exact hd
      · exact h c hc
    simp only [Nat.toDigitsCore] at hc
    split at hc
    · exact hall c hc
    · exact ih _ _ hall c hc

theorem toDigits_ne_nil (n : Nat) : Nat.toDigits 10 n ≠ [] := by
  intro h
  have hlen := congrArg List.length h
  simp only [Nat.toDigits, Nat.toDigitsCore] at hlen
  split at hlen
  · simp at hlen
  · rw [Nat.toDigitsCore_lens_eq] at hlen
    simp at hlen

theorem repr_toList (n : Nat) : (Nat.repr n).toList = Nat.toDigits 10 n := rfl

theorem repr_all_digits (n : Nat) : ∀ c ∈ (Nat.repr n).toList, isAsciiDigit c = true := by
  rw [repr_toList]
  exact toDigitsCore_all_digits _ n [] (by simp)

theorem repr_ne_empty (n : Nat) : Nat.repr n ≠ "" := by
  intro h
  apply toDigits_ne_nil n
  rw [← repr_toList, h]
  rfl

theorem matchAfterDigit_of_all_digits (l : List Char) (h : ∀ c ∈ l, isAsciiDigit c = true) :
    matchAfterDigit l = true := by
  induction l with
  | nil => rfl
  | cons c cs ih =>
    have hc : isAsciiDigit c = true := h c (by simp)
    simp only [matchAfterDigit, hc, if_true]
    exact ih (fun d hd => h d (by simp [hd]))

theorem matchNumeric_of_all_digits (l : List Char) (hne : l ≠ [])
    (h : ∀ c ∈ l, isAsciiDigit c = true) : matchNumeric l = true := by
  cases l with
  | nil => exact absurd rfl hne
  | cons c cs =>
    have hc : isAsciiDigit c = true := h c (by simp)
    simp only [matchNumeric, hc, Bool.true_and]
    exact matchAfterDigit_of_all_digits cs (fun d hd => h d (by simp [hd]))

theorem isNumericString_repr (n : Nat) : isNumericString (Nat.repr n) = true := by
  apply matchNumeric_of_all_digits _ _ (repr_all_digits n)
  rw [repr_toList]
  exact toDigits_ne_nil n

theorem matchDigits1_chars (l : List Char) (h : matchDigits1 l = true) :
    l ≠ [] ∧ ∀ c ∈ l, isAsciiDigit c = true := by
  induction l with
  | nil => simp [matchDigits1] at h
  | cons c cs ih =>
    cases cs with
    | nil => simpa [matchDigits1] using h
    | cons d ds =>
      simp only [matchDigits1, Bool.and_eq_true] at h
      refine ⟨by simp, ?_⟩
      intro x hx
      rcases List.mem_cons.mp hx with rfl | hx
      · exact h.1
      · exact (ih h.2).2 x hx

theorem matchAfterDigit_chars (l : List Char) (h : matchAfterDigit l = true) :
    ∀ c ∈ l, isAsciiDigit c = true ∨ c = '.' := by
  induction l with
  | nil => simp
  | cons c cs ih =>
    intro x hx
    simp only [matchAfterDigit] at h
    split at h
    · rename_i hc
      rcases List.mem_cons.mp hx with rfl | hx
      · exact Or.inl hc
      · exact ih h x hx
    · simp only [Bool.and_eq_true, beq_iff_eq] at h
      rcases List.mem_cons.mp hx with rfl | hx
      · exact Or.inr h.1
      · exact Or.inl ((matchDigits1_chars cs h.2).2 x hx)

theorem matchNumeric_chars (l : List Char) (h : matchNumeric l = true) :
    ∀ c ∈ l, isAsciiDigit c = true ∨ c = '.' := by
  cases l with
  | nil => simp
  | cons c cs =>
    simp only [matchNumeric, Bool.and_eq_true] at h
    intro x hx
    rcases List.mem_cons.mp hx with rfl | hx
    · exact Or.inl h.1
    · exact matchAfterDigit_chars cs h.2 x hx

/-- A text containing a minus sign matches neither the numeric pattern nor a boolean word. -/
theorem not_numeric_of_minus (s : String) (h : '-' ∈ s.toList) :
    isNumericString s = false ∧ isBooleanString s = false := by
  constructor
  · cases hn : isNumericString s with
    | false => rfl
    | true =>
      rcases matchNumeric_chars s.toList hn '-' h with h1 | h1
      · exact absurd h1 (by decide)
      · exact absurd h1 (by decide)
  · cases hb : isBooleanString s with
    | false => rfl
    | true =>
      simp only [isBooleanString, Bool.or_eq_true, beq_iff_eq] at hb
      rcases hb with hb | hb
      · rw [hb] at h
        exact absurd h (by decide)
      · rw [hb] at h
        exact absurd h (by decide)

theorem minus_mem_formatInt (n : Int) (h : n < 0) : '-' ∈ (formatInt n).toList := by
  simp only [formatInt, h, if_true, String.toList, String.data_append]
  exact List.mem_append_left _ (List.mem_singleton.mpr rfl)

theorem formatInt_ne_empty (n : Int) : formatInt n ≠ "" := by
  by_cases h : n < 0
  · exact ne_empty_of_mem (minus_mem_formatInt n h)
  · simp only [formatInt, h, if_false]
    exact repr_ne_empty _

end StrikeMySQL

namespace StrikeMySQL

/-! ## The literal formatter -/

theorem minus_mem_formatDateTime (c : Civil) : '-' ∈ (formatDateTime c).toList := by
  simp only [formatDateTime, String.toList, String.data_append, List.mem_append]
  exact Or.inl (Or.inl (Or.inl (Or.inl (Or.inl (Or.inl (Or.inl (Or.inl (Or.inl (Or.inr
    (List.mem_singleton.mpr rfl))))))))))

theorem minus_mem_timeString (t : Time) : '-' ∈ t.String.toList := by
  have h := minus_mem_formatDateTime (civilOfSeconds (t.unixSec + t.offset))
  simp only [String.toList] at h
  simp only [Time.String, String.toList, String.data_append, List.mem_append]
  exact Or.inl (Or.inl (Or.inl (Or.inl (Or.inl (Or.inl h)))))

/-- The value is omitted exactly when it is `nil`, renders to the empty text or is not of
a primitive kind. -/
theorem printValue_eq_empty_iff_aux (name : String) (v : Value) :
    (FieldWithValue.mk name v).printValue = "" ↔
      (v = .nil ∨ sprintV v = "" ∨ isPrimitiveType v = false) := by
  constructor
  · intro h
    by_contra hc
    simp only [not_or] at hc
    obtain ⟨h1, h2, h3⟩ := hc
    have hnil : v.isNil = false := by
      cases v <;> simp [Value.isNil] at h1 ⊢
    have h2b : (sprintV v == "") = false := by simpa using h2
    have h3b : isPrimitiveType v = true := by simpa using h3
    simp only [FieldWithValue.printValue, hnil, h2b, h3b, Bool.not_true, Bool.or_self,
      Bool.false_eq_true, if_false] at h
    split at h
    · exact h2 h
    · exact quoted_ne_empty _ h
  · intro h
    have hcond : (v.isNil || sprintV v == "" || !isPrimitiveType v) = true := by
      rcases h with h | h | h
      · subst h
        rfl
      · simp [h]
      · simp [h]
    simp only [FieldWithValue.printValue, hcond, if_true]

theorem sprintV_bool_ne_empty (b : Bool) : sprintV (.bool b) ≠ "" := by
  cases b <;> decide

/-- C2: `printValue` returns the empty string if and only if the value is `nil`, is of a
kind other than int, int64, float32, float64, string, bool and timestamp, or is the empty
string; for every other value the literal is non-empty. -/
theorem printValue_eq_empty_iff (name : String) (v : Value) :
    (FieldWithValue.mk name v).printValue = "" ↔
      (v = .nil ∨ (∃ r, v = .other r) ∨ v = .str "") := by
  rw [printValue_eq_empty_iff_aux]
  cases v with
  | nil => simp
  | int n => simp [sprintV, isPrimitiveType, formatInt_ne_empty]
  | int64 n => simp [sprintV, isPrimitiveType, formatInt_ne_empty]
  | float32 f => simp [sprintV, isPrimitiveType, f.text_ne]
  | float64 f => simp [sprintV, isPrimitiveType, f.text_ne]
  | str s => simp [sprintV, isPrimitiveType]
  | bool b =>
    have := sprintV_bool_ne_empty b
    simp [isPrimitiveType, this]
  | time t =>
    have : sprintV (.time t) ≠ "" := ne_empty_of_mem (minus_mem_timeString t)
    simp [isPrimitiveType, this]
  | other r => simp [isPrimitiveType]

theorem printValue_int_nonneg (name : String) (n : Int) (h : 0 ≤ n) (v : Value)
    (hv : v = .int n ∨ v = .int64 n) :
    (FieldWithValue.mk name v).printValue = Nat.repr n.toNat := by
  have hf : formatInt n = Nat.repr n.toNat := by
    have hn : ¬ n < 0 := by omega
    have habs : n.natAbs = n.toNat := by omega
    simp only [formatInt, hn, if_false, habs]
  have hne : (Nat.repr n.toNat == "") = false := by simpa using repr_ne_empty n.toNat
  rcases hv with rfl | rfl <;>
    simp [FieldWithValue.printValue, Value.isNil, sprintV, isPrimitiveType, hf, hne, isNumericString_repr]

theorem printValue_int_neg (name : String) (n : Int) (h : n < 0) (v : Value)
    (hv : v = .int n ∨ v = .int64 n) :
    (FieldWithValue.mk name v).printValue = "'-" ++ Nat.repr n.natAbs ++ "'" := by
  have hf : formatInt n = "-" ++ Nat.repr n.natAbs := by
    simp only [formatInt, h, if_true]
  have hne : (formatInt n == "") = false := by simpa using formatInt_ne_empty n
  obtain ⟨h1, h2⟩ := not_numeric_of_minus _ (minus_mem_formatInt n h)
  have hq : "'" ++ ("-" ++ Nat.repr n.natAbs) ++ "'" = "'-" ++ Nat.repr n.natAbs ++ "'" := by
    rw [← String.append_assoc]
    rfl
  rcases hv with rfl | rfl <;>
    simp [FieldWithValue.printValue, Value.isNil, sprintV, isPrimitiveType, hne, h1, h2] <;>
    rw [hf, hq]

/-- C3: for an integer `n` held as int or int64, `print` without table qualifier returns
the field name, ` = ` and the decimal digits of `n` unquoted when `n ≥ 0`, and the field
name, ` = ` and the single-quoted text `'-digits'` of `|n|` when `n < 0`. -/
theorem print_int (f : String) (n : Int) :
    (FieldWithValue.mk f (.int n)).print "" =
        (if 0 ≤ n then f ++ " = " ++ Nat.repr n.toNat
          else f ++ " = '-" ++ Nat.repr n.natAbs ++ "'") ∧
      (FieldWithValue.mk f (.int64 n)).print "" =
        (if 0 ≤ n then f ++ " = " ++ Nat.repr n.toNat
          else f ++ " = '-" ++ Nat.repr n.natAbs ++ "'") := by
  have hp : ∀ v : Value, (FieldWithValue.mk f v).print "" =
      f ++ " = " ++ (FieldWithValue.mk f v).printValue := by
    intro v
    simp [FieldWithValue.print]
  rw [hp, hp]
  by_cases h : 0 ≤ n
  · rw [if_pos h, printValue_int_nonneg f n h _ (Or.inl rfl),
      printValue_int_nonneg f n h _ (Or.inr rfl)]
    exact ⟨rfl, rfl⟩
  · have hneg : n < 0 := by omega
    rw [if_neg h, printValue_int_neg f n hneg _ (Or.inl rfl),
      printValue_int_neg f n hneg _ (Or.inr rfl)]
    have hq : f ++ " = " ++ ("'-" ++ Nat.repr n.natAbs ++ "'") =
        f ++ " = '-" ++ Nat.repr n.natAbs ++ "'" := by
      simp only [String.append_assoc]
      rfl
    exact ⟨hq, hq⟩

/-- C5: for a string value that is non-empty, does not match the numeric pattern and is
neither `true` nor `false`, `printValue` returns the string unchanged between two single
quotes, so the literal has two characters more than the string. -/
theorem printValue_string_quoted (name s : String) (hne : s ≠ "")
    (hnum : isNumericString s = false) (ht : s ≠ "true") (hf : s ≠ "false") :
    (FieldWithValue.mk name (.str s)).printValue = "'" ++ s ++ "'" ∧
      (FieldWithValue.mk name (.str s)).printValue.length = s.length + 2 := by
  have hb : isBooleanString s = false := by
    simp [isBooleanString, ht, hf]
  have he : (s == "") = false := by simpa using hne
  have hpv : (FieldWithValue.mk name (.str s)).printValue = "'" ++ s ++ "'" := by
    simp [FieldWithValue.printValue, Value.isNil, sprintV, isPrimitiveType, he, hnum, hb]
  refine ⟨hpv, ?_⟩
  rw [hpv]
  simp only [String.length_append]
  have : "'".length = 1 := rfl
  omega

/-- C5 witness: an embedded single quote is copied as it is. -/
theorem printValue_string_quoted_witness :
    (FieldWithValue.mk "surname" (.str "O'Neil")).printValue = "'" ++ "O'Neil" ++ "'" ∧
      (FieldWithValue.mk "surname" (.str "O'Neil")).printValue.length = "O'Neil".length + 2 :=
  printValue_string_quoted "surname" "O'Neil" (by decide) (by decide) (by decide) (by decide)

end StrikeMySQL

namespace StrikeMySQL

/-! ## The numeric pattern, in words -/

theorem isAsciiDigit_iff (c : Char) : isAsciiDigit c = true ↔ '0' ≤ c ∧ c ≤ '9' := by
  simp [isAsciiDigit]

theorem matchDigits1_of_all_digits (l : List Char) (hne : l ≠ [])
    (h : ∀ c ∈ l, isAsciiDigit c = true) : matchDigits1 l = true := by
  induction l with
  | nil => exact absurd rfl hne
  | cons c cs ih =>
    have hc : isAsciiDigit c = true := h c (by simp)
    cases cs with
    | nil => simpa [matchDigits1] using hc
    | cons d ds =>
      simp only [matchDigits1, hc, Bool.true_and]
      exact ih (by simp) (fun x hx => h x (List.mem_cons_of_mem _ hx))

theorem matchAfterDigit_split (l : List Char) (h : matchAfterDigit l = true) :
    (∀ c ∈ l, isAsciiDigit c = true) ∨
      ∃ a b : List Char, l = a ++ '.' :: b ∧ (∀ c ∈ a, isAsciiDigit c = true) ∧ b ≠ [] ∧
        ∀ c ∈ b, isAsciiDigit c = true := by
  induction l with
  | nil => exact Or.inl (by simp)
  | cons c cs ih =>
    simp only [matchAfterDigit] at h
    split at h
    · rename_i hc
      rcases ih h with hall | ⟨a, b, hl, ha, hb, hb2⟩
      · left
        intro x hx
        rcases List.mem_cons.mp hx with rfl | hx
        · exact hc
        · exact hall x hx
      · right
        refine ⟨c :: a, b, by simp [hl], ?_, hb, hb2⟩
        intro x hx
        rcases List.mem_cons.mp hx with rfl | hx
        · exact hc
        · exact ha x hx
    · simp only [Bool.and_eq_true, beq_iff_eq] at h
      right
      obtain ⟨hdot, hd⟩ := h
      have := matchDigits1_chars cs hd
      exact ⟨[], cs, by simp [hdot], by simp, this.1, this.2⟩

theorem matchAfterDigit_of_split (a b : List Char) (ha : ∀ c ∈ a, isAsciiDigit c = true)
    (hb : b ≠ []) (hb2 : ∀ c ∈ b, isAsciiDigit c = true) :
    matchAfterDigit (a ++ '.' :: b) = true := by
  induction a with
  | nil =>
    have hdot : isAsciiDigit '.' = false := by decide
    simp only [List.nil_append, matchAfterDigit, hdot, Bool.false_eq_true, if_false, beq_self_eq_true,
      Bool.true_and]
    exact matchDigits1_of_all_digits b hb hb2
  | cons c cs ih =>
    have hc : isAsciiDigit c = true := ha c (by simp)
    simp only [List.cons_append, matchAfterDigit, hc, if_true]
    exact ih (fun x hx => ha x (List.mem_cons_of_mem _ hx))

/-- The pattern `^[0-9]+(\.[0-9]+)?$` accepts exactly the texts made of one or more ASCII
digits, optionally followed by one `.` and one or more ASCII digits. -/
theorem isNumericString_iff (s : String) : isNumericString s = true ↔ NumericShape s := by
  unfold isNumericString NumericShape
  constructor
  · intro h
    cases hl : s.toList with
    | nil => rw [hl] at h; simp [matchNumeric] at h
    | cons c cs =>
      rw [hl] at h
      simp only [matchNumeric, Bool.and_eq_true] at h
      rcases matchAfterDigit_split cs h.2 with hall | ⟨a, b, hcs, ha, hb, hb2⟩
      · refine ⟨c :: cs, [], by simp, ?_, Or.inl rfl⟩
        intro x hx
        rcases List.mem_cons.mp hx with rfl | hx
        · exact (isAsciiDigit_iff _).mp h.1
        · exact (isAsciiDigit_iff _).mp (hall x hx)
      · refine ⟨c :: a, b, by simp, ?_, Or.inr ⟨hb, ?_, by simp [hcs]⟩⟩
        · intro x hx
          rcases List.mem_cons.mp hx with rfl | hx
          · exact (isAsciiDigit_iff _).mp h.1
          · exact (isAsciiDigit_iff _).mp (ha x hx)
        · intro x hx
          exact (isAsciiDigit_iff _).mp (hb2 x hx)
  · rintro ⟨a, b, ha, ha2, hs | ⟨hb, hb2, hs⟩⟩
    · rw [hs]
      exact matchNumeric_of_all_digits a ha (fun x hx => (isAsciiDigit_iff _).mpr (ha2 x hx))
    · rw [hs]
      cases a with
      | nil => exact absurd rfl ha
      | cons c cs =>
        have hc : isAsciiDigit c = true := (isAsciiDigit_iff _).mpr (ha2 c (by simp))
        simp only [List.cons_append, matchNumeric, hc, Bool.true_and]
        exact matchAfterDigit_of_split cs b
          (fun x hx => (isAsciiDigit_iff _).mpr (ha2 x (List.mem_cons_of_mem _ hx))) hb
          (fun x hx => (isAsciiDigit_iff _).mpr (hb2 x hx))

/-- C4 (as stated, refuted): for the empty string `printValue` returns the string itself
(the empty text), although it is neither `true`, `false` nor of the numeric shape. -/
theorem printValue_string_unquoted_counterexample :
    ¬ ((FieldWithValue.mk "name" (.str "")).printValue = "" ↔
      ("" = "true" ∨ "" = "false" ∨ NumericShape "")) := by
  intro h
  rcases h.mp (by decide) with h1 | h1 | ⟨a, b, ha, _, hs | ⟨_, _, hs⟩⟩
  · exact absurd h1 (by decide)
  · exact absurd h1 (by decide)
  · have h0 : "".toList = [] := rfl
    rw [h0] at hs
    exact ha hs.symm
  · have h0 : "".toList = [] := rfl
    rw [h0] at hs
    cases a <;> simp at hs

/-- C4 (amended): for every non-empty string value `s`, `printValue` returns `s` itself,
unquoted, if and only if `s` is `true`, `false`, or consists of one or more ASCII digits
optionally followed by a single `.` and one or more ASCII digits. -/
theorem printValue_string_unquoted_iff (name s : String) (hne : s ≠ "") :
    (FieldWithValue.mk name (.str s)).printValue = s ↔
      (s = "true" ∨ s = "false" ∨ NumericShape s) := by
  have he : (s == "") = false := by simpa using hne
  have hpv : (FieldWithValue.mk name (.str s)).printValue =
      if (isNumericString s || isBooleanString s) = true then s else "'" ++ s ++ "'" := by
    simp [FieldWithValue.printValue, Value.isNil, sprintV, isPrimitiveType, he]
  have hcond : (isNumericString s || isBooleanString s) = true ↔
      (s = "true" ∨ s = "false" ∨ NumericShape s) := by
    rw [Bool.or_eq_true, isNumericString_iff]
    simp only [isBooleanString, Bool.or_eq_true, beq_iff_eq]
    tauto
  rw [hpv, ← hcond]
  constructor
  · intro h
    by_contra hc
    rw [if_neg hc] at h
    exact quoted_ne_self s h
  · intro h
    rw [if_pos h]

/-- C4 witness: the filter value of `TestSelectQueryBasic`. -/
theorem printValue_string_unquoted_iff_witness :
    (FieldWithValue.mk "height" (.str "1.64")).printValue = "1.64" ↔
      ("1.64" = "true" ∨ "1.64" = "false" ∨ NumericShape "1.64") :=
  printValue_string_unquoted_iff "height" "1.64" (by decide)

/-- The examples of C4: `1.64`, `23` and `007` are emitted unquoted; `1.`, `.5`, `1.2.3`,
`+1` and a numeral followed by a line feed are quoted. -/
theorem printValue_string_examples :
    (["1.64", "23", "007", "1.", ".5", "1.2.3", "+1", "12\n"].map
      (fun s => (FieldWithValue.mk "v" (.str s)).printValue)) =
      ["1.64", "23", "007", "'1.'", "'.5'", "'1.2.3'", "'+1'", "'12\n'"] := by
  decide

end StrikeMySQL

namespace StrikeMySQL

/-! ## Timestamps -/

theorem civilOfSeconds_bounds (sec : Int) :
    1 ≤ (civilOfSeconds sec).month ∧ (civilOfSeconds sec).month ≤ 12 ∧
    1 ≤ (civilOfSeconds sec).day ∧ (civilOfSeconds sec).day ≤ 31 ∧
    0 ≤ (civilOfSeconds sec).hour ∧ (civilOfSeconds sec).hour ≤ 23 ∧
    0 ≤ (civilOfSeconds sec).minute ∧ (civilOfSeconds sec).minute ≤ 59 ∧
    0 ≤ (civilOfSeconds sec).second ∧ (civilOfSeconds sec).second ≤ 59 := by
  simp only [civilOfSeconds]
  refine ⟨?_, ?_, ?_, ?_, ?_, ?_, ?_, ?_, ?_, ?_⟩ <;> omega

theorem padNat_length (w n : Nat) (hw : 0 < w) (h : n < 10 ^ w) : (padNat w n).length = w := by
  have hl := Nat.repr_length n w hw h
  have hz : (String.mk (List.replicate (w - (Nat.repr n).length) '0')).length =
      w - (Nat.repr n).length :=
    List.length_replicate _ _
  unfold padNat
  rw [String.length_append, hz]
  omega

theorem appendInt_of_nonneg (x : Int) (w : Nat) (h : 0 ≤ x) :
    appendInt x w = padNat w x.toNat := by
  have hn : ¬ x < 0 := by omega
  have habs : x.natAbs = x.toNat := by omega
  simp only [appendInt, hn, if_false, habs]

/-- The layout `2006-01-02 15:04:05` for a year from 0 to 9999: six zero-padded fields of
fixed width. -/
theorem formatDateTime_civil (sec : Int) (h0 : 0 ≤ (civilOfSeconds sec).year) :
    formatDateTime (civilOfSeconds sec) =
      padNat 4 (civilOfSeconds sec).year.toNat ++ "-" ++
        padNat 2 (civilOfSeconds sec).month.toNat ++ "-" ++
        padNat 2 (civilOfSeconds sec).day.toNat ++ " " ++
        padNat 2 (civilOfSeconds sec).hour.toNat ++ ":" ++
        padNat 2 (civilOfSeconds sec).minute.toNat ++ ":" ++
        padNat 2 (civilOfSeconds sec).second.toNat := by
  obtain ⟨hm, _, hd, _, hh, _, hmi, _, hs, _⟩ := civilOfSeconds_bounds sec
  simp only [formatDateTime]
  rw [appendInt_of_nonneg _ 4 h0, appendInt_of_nonneg _ 2 (by omega),
    appendInt_of_nonneg _ 2 (by omega), appendInt_of_nonneg _ 2 hh,
    appendInt_of_nonneg _ 2 hmi, appendInt_of_nonneg _ 2 hs]

theorem printValue_time_eq (name : String) (t : Time) :
    (FieldWithValue.mk name (.time t)).printValue =
      "'" ++ formatDateTime (civilOfSeconds t.unixSec) ++ "'" := by
  have hne : (t.String == "") = false := by
    simpa using ne_empty_of_mem (minus_mem_timeString t)
  obtain ⟨h1, h2⟩ := not_numeric_of_minus _ (minus_mem_timeString t)
  simp [FieldWithValue.printValue, Value.isNil, sprintV, isPrimitiveType, hne, h1, h2,
    Time.Format, Time.UTC]

/-- C6: for a timestamp whose UTC year lies between 0 and 9999, `printValue` returns a
single quote, the UTC date and time of the instant as `YYYY-MM-DD HH:MM:SS` (zero-padded
fields of widths 4, 2, 2, 2, 2, 2 with month 1-12, day 1-31, hour 0-23, minute and second
0-59; 19 characters) and a single quote; a timestamp of the same instant in any other
zone gives the same literal. -/
theorem printValue_time (name : String) (t : Time)
    (hy : 0 ≤ (civilOfSeconds t.unixSec).year ∧ (civilOfSeconds t.unixSec).year ≤ 9999) :
    (FieldWithValue.mk name (.time t)).printValue =
        "'" ++ (padNat 4 (civilOfSeconds t.unixSec).year.toNat ++ "-" ++
          padNat 2 (civilOfSeconds t.unixSec).month.toNat ++ "-" ++
          padNat 2 (civilOfSeconds t.unixSec).day.toNat ++ " " ++
          padNat 2 (civilOfSeconds t.unixSec).hour.toNat ++ ":" ++
          padNat 2 (civilOfSeconds t.unixSec).minute.toNat ++ ":" ++
          padNat 2 (civilOfSeconds t.unixSec).second.toNat) ++ "'" ∧
      (padNat 4 (civilOfSeconds t.unixSec).year.toNat).length = 4 ∧
      (padNat 2 (civilOfSeconds t.unixSec).month.toNat).length = 2 ∧
      (padNat 2 (civilOfSeconds t.unixSec).day.toNat).length = 2 ∧
      (padNat 2 (civilOfSeconds t.unixSec).hour.toNat).length = 2 ∧
      (padNat 2 (civilOfSeconds t.unixSec).minute.toNat).length = 2 ∧
      (padNat 2 (civilOfSeconds t.unixSec).second.toNat).length = 2 ∧
      (FieldWithValue.mk name (.time t)).printValue.length = 21 ∧
      (1 ≤ (civilOfSeconds t.unixSec).month ∧ (civilOfSeconds t.unixSec).month ≤ 12 ∧
        1 ≤ (civilOfSeconds t.unixSec).day ∧ (civilOfSeconds t.unixSec).day ≤ 31 ∧
        0 ≤ (civilOfSeconds t.unixSec).hour ∧ (civilOfSeconds t.unixSec).hour ≤ 23 ∧
        0 ≤ (civilOfSeconds t.unixSec).minute ∧ (civilOfSeconds t.unixSec).minute ≤ 59 ∧
        0 ≤ (civilOfSeconds t.unixSec).second ∧ (civilOfSeconds t.unixSec).second ≤ 59) ∧
      ∀ t2 : Time, t2.unixSec = t.unixSec →
        (FieldWithValue.mk name (.time t2)).printValue =
          (FieldWithValue.mk name (.time t)).printValue := by
  have hb := civilOfSeconds_bounds t.unixSec
  obtain ⟨hm, hm2, hd, hd2, hh, hh2, hmi, hmi2, hs, hs2⟩ := hb
  have hpv := printValue_time_eq name t
  rw [formatDateTime_civil t.unixSec hy.1] at hpv
  have l4 : (padNat 4 (civilOfSeconds t.unixSec).year.toNat).length = 4 :=
    padNat_length 4 _ (by decide) (by omega)
  have l2m : (padNat 2 (civilOfSeconds t.unixSec).month.toNat).length = 2 :=
    padNat_length 2 _ (by decide) (by omega)
  have l2d : (padNat 2 (civilOfSeconds t.unixSec).day.toNat).length = 2 :=
    padNat_length 2 _ (by decide) (by omega)
  have l2h : (padNat 2 (civilOfSeconds t.unixSec).hour.toNat).length = 2 :=
    padNat_length 2 _ (by decide) (by omega)
  have l2mi : (padNat 2 (civilOfSeconds t.unixSec).minute.toNat).length = 2 :=
    padNat_length 2 _ (by decide) (by omega)
  have l2s : (padNat 2 (civilOfSeconds t.unixSec).second.toNat).length = 2 :=
    padNat_length 2 _ (by decide) (by omega)
  refine ⟨hpv, l4, l2m, l2d, l2h, l2mi, l2s, ?_, ⟨hm, hm2, hd, hd2, hh, hh2, hmi, hmi2, hs, hs2⟩,
    ?_⟩
  · rw [hpv]
    simp only [String.length_append, l4, l2m, l2d, l2h, l2mi, l2s]
    rfl
  · intro t2 h2
    rw [printValue_time_eq name t2, printValue_time_eq name t, h2]

/-- C6 witness: midnight of 1978-08-23 at three hours west of UTC, the birth date of
`TestInsertQueryWithBasicStruct`. -/
theorem printValue_time_witness :
    (FieldWithValue.mk "birth_date"
        (.time ⟨272689200, 0, -10800, "-03", none⟩)).printValue = "'1978-08-23 03:00:00'" :=
  (printValue_time "birth_date" ⟨272689200, 0, -10800, "-03", none⟩ (by decide)).1.trans
    (by decide)

end StrikeMySQL

namespace StrikeMySQL

/-! ## DELETE and the join clause -/

theorem printAllJoinFieldsLoop_eq (n : Nat) (fs : List JoinField) :
    ∀ (i : Nat) (acc : String), fs ≠ [] → i + fs.length = n →
      printAllJoinFieldsLoop n i fs acc = acc ++ " ".intercalate (fs.map (fun f => f.print)) := by
  induction fs with
  | nil => intro i acc h; exact absurd rfl h
  | cons f rest ih =>
    intro i acc _ hlen
    cases rest with
    | nil =>
      have hi : i = n - 1 := by simp at hlen; omega
      simp [printAllJoinFieldsLoop, hi, intercalate_singleton]
    | cons g rest2 =>
      have hi : i ≠ n - 1 := by simp at hlen; omega
      have hrec := ih (i + 1) (acc ++ (f.print ++ " ")) (by simp)
        (by simp at hlen ⊢; omega)
      rw [printAllJoinFieldsLoop, if_pos hi, hrec]
      simp only [List.map_cons]
      rw [intercalate_cons_cons]
      simp [String.append_assoc]

/-- C11: for a non-empty filter list `MakeDeleteQuery` returns `DELETE FROM t WHERE `
followed by the renders `name = literal` of the filters, in input order, joined by
` AND `, and `;`, with no table qualifier; for the empty filter list it returns
`DELETE FROM t ;` with no WHERE keyword. -/
theorem MakeDeleteQuery_eq (t : String) (filter : List FieldWithValue) :
    MakeDeleteQuery t filter =
      if filter.isEmpty then "DELETE FROM " ++ t ++ " ;"
      else "DELETE FROM " ++ t ++ " WHERE " ++
        " AND ".intercalate (filter.map (fun f => f.FieldName ++ " = " ++ f.printValue)) ++
        ";" := by
  have hp : ∀ f : FieldWithValue, f.print "" = f.FieldName ++ " = " ++ f.printValue := by
    intro f
    simp [FieldWithValue.print]
  by_cases hf : filter = []
  · subst hf
    simp only [MakeDeleteQuery, printAllFieldWithValue, List.length_nil, if_true,
      List.isEmpty_nil]
    simp [String.append_assoc]
  · have he : filter.isEmpty = false := by simpa using hf
    rw [he, if_neg (by simp)]
    have hw : ∀ x : String, " " ++ ("WHERE " ++ x) = " WHERE " ++ x := by
      intro x
      rw [← String.append_assoc]
      rfl
    simp only [MakeDeleteQuery, printAllFieldWithValue_nil_table filter hf, hp,
      String.append_assoc, hw]

/-- C19: `printAllJoinFields` returns the renders
`JOIN toTable ON fromTable.fromAttribute = toTable.toAttribute` of the join fields, in
input order, joined by exactly one space, nothing before the first and nothing after the
last; for the empty list it returns the empty string. -/
theorem printAllJoinFields_eq (fields : List JoinField) :
    printAllJoinFields fields =
        " ".intercalate (fields.map (fun jf =>
          "JOIN " ++ jf.JoinToTable ++ " ON " ++ jf.JoinFromTable ++ "." ++
            jf.JoinFromAttribute ++ " = " ++ jf.JoinToTable ++ "." ++ jf.JoinToAttribute)) ∧
      printAllJoinFields [] = "" := by
  refine ⟨?_, rfl⟩
  cases fields with
  | nil => rfl
  | cons f rest =>
    have := printAllJoinFieldsLoop_eq (f :: rest).length (f :: rest) 0 "" (by simp) (by simp)
    simpa [printAllJoinFields, JoinField.print] using this

end StrikeMySQL

namespace StrikeMySQL

/-! ## Text splitting -/

theorem cut_nil (sep : List Char) (h : sep ≠ []) : cut sep [] = none := by
  cases sep with
  | nil => exact absurd rfl h
  | cons c cs => rfl

theorem cut_cons (sep : List Char) (c : Char) (cs : List Char) :
    cut sep (c :: cs) =
      if sep.isPrefixOf (c :: cs) then some ([], (c :: cs).drop sep.length)
      else (cut sep cs).map (fun p => (c :: p.1, p.2)) := by
  rw [cut]

/-- A successful cut splits the text around one occurrence of the separator. -/
theorem cut_eq_append (sep : List Char) (s : List Char) :
    ∀ b a, cut sep s = some (b, a) → s = b ++ sep ++ a := by
  induction s with
  | nil =>
    intro b a h
    cases sep with
    | nil => simp [cut] at h; simp [h.1, h.2]
    | cons c cs => simp [cut] at h
  | cons c cs ih =>
    intro b a h
    rw [cut_cons] at h
    split at h
    · rename_i hp
      rw [List.isPrefixOf_iff_prefix] at hp
      simp only [Option.some.injEq, Prod.mk.injEq] at h
      obtain ⟨rfl, rfl⟩ := h
      simpa using (List.prefix_iff_eq_append.mp hp).symm
    · cases hc : cut sep cs with
      | none => simp [hc] at h
      | some p =>
        simp only [hc, Option.map_some', Option.some.injEq, Prod.mk.injEq] at h
        obtain ⟨rfl, rfl⟩ := h
        have := ih p.1 p.2 (by rw [hc])
        simp [this]

/-- The cut fails exactly on the texts in which the separator does not occur. -/
theorem cut_eq_none_iff (sep : List Char) (s : List Char) :
    cut sep s = none ↔ ¬ sep <:+: s := by
  induction s with
  | nil =>
    cases sep with
    | nil => simp [cut]
    | cons c cs => simp [cut]
  | cons c cs ih =>
    rw [cut_cons, List.infix_cons_iff]
    by_cases hp : sep.isPrefixOf (c :: cs) = true
    · rw [if_pos hp]
      rw [List.isPrefixOf_iff_prefix] at hp
      simp [hp]
    · rw [if_neg hp]
      rw [List.isPrefixOf_iff_prefix] at hp
      simp [hp, ih]

theorem cut_single_not_mem (c : Char) (s : List Char) :
    ∀ b a, cut [c] s = some (b, a) → c ∉ b := by
  induction s with
  | nil => intro b a h; simp [cut] at h
  | cons d ds ih =>
    intro b a h
    rw [cut_cons] at h
    split at h
    · simp only [Option.some.injEq, Prod.mk.injEq] at h
      rw [← h.1]
      simp
    · rename_i hp
      cases hc : cut [c] ds with
      | none => simp [hc] at h
      | some p =>
        simp only [hc, Option.map_some', Option.some.injEq, Prod.mk.injEq] at h
        rw [← h.1]
        have hd : c ≠ d := by
          intro hcd
          apply hp
          rw [List.isPrefixOf_iff_prefix, hcd]
          exact ⟨ds, rfl⟩
        have := ih p.1 p.2 (by rw [hc])
        simp [hd, this]

theorem singleton_infix_iff (c : Char) (s : List Char) : [c] <:+: s ↔ c ∈ s := by
  constructor
  · rintro ⟨a, b, rfl⟩
    simp
  · intro h
    obtain ⟨a, b, rfl⟩ := List.append_of_mem h
    exact ⟨a, b, by simp⟩

theorem cut_single_none (c : Char) (s : List Char) (h : cut [c] s = none) : c ∉ s := by
  rw [cut_eq_none_iff, singleton_infix_iff] at h
  exact h

end StrikeMySQL

namespace StrikeMySQL

theorem not_infix_cons (sep l : List Char) (c : Char) (hc : c ∉ sep) (h : ¬ sep <:+: l) :
    ¬ sep <:+: c :: l := by
  rw [List.infix_cons_iff]
  rintro (hp | hi)
  · cases sep with
    | nil => exact h List.nil_infix
    | cons d ds =>
      rw [List.cons_prefix_cons] at hp
      exact hc (by simp [hp.1])
  · exact h hi

theorem not_infix_concat (sep l : List Char) (c : Char) (hc : c ∉ sep) (h : ¬ sep <:+: l) :
    ¬ sep <:+: l ++ [c] := by
  rw [List.infix_concat_iff]
  rintro (hs | hi)
  · rw [List.suffix_concat_iff] at hs
    rcases hs with rfl | ⟨t, rfl, _⟩
    · exact h List.nil_infix
    · exact hc (by simp)
  · exact h hi

theorem not_prefix_append (sep u rest : List Char) (c : Char) (hc : c ∉ sep)
    (hu : ¬ sep <:+: u) : ¬ sep <+: u ++ c :: rest := by
  intro hp
  have h2 : u <+: u ++ c :: rest := List.prefix_append _ _
  rcases List.prefix_or_prefix_of_prefix hp h2 with h | h
  · exact hu h.isInfix
  · obtain ⟨t, rfl⟩ := h
    rw [List.prefix_append_right_inj] at hp
    cases t with
    | nil => exact hu (by simp)
    | cons d ds =>
      rw [List.cons_prefix_cons] at hp
      exact hc (by simp [hp.1])

theorem cut_prefix (sep rest : List Char) (hne : sep ≠ []) :
    cut sep (sep ++ rest) = some ([], rest) := by
  cases hs : sep ++ rest with
  | nil => simp [hne] at hs
  | cons d ds =>
    have hp : sep.isPrefixOf (d :: ds) = true := by
      rw [List.isPrefixOf_iff_prefix, ← hs]
      exact List.prefix_append _ _
    rw [cut_cons, if_pos hp, ← hs]
    simp

/-- The first occurrence of a separator that follows a text free of it and a character
foreign to it. -/
theorem cut_append_sep (sep u rest : List Char) (c : Char) (hc : c ∉ sep) (hne : sep ≠ [])
    (hu : ¬ sep <:+: u) : cut sep (u ++ c :: (sep ++ rest)) = some (u ++ [c], rest) := by
  induction u with
  | nil =>
    have hp : ¬ sep.isPrefixOf (c :: (sep ++ rest)) = true := by
      rw [List.isPrefixOf_iff_prefix]
      exact not_prefix_append sep [] (sep ++ rest) c hc hu
    rw [List.nil_append, cut_cons, if_neg hp, cut_prefix sep rest hne]
    rfl
  | cons x u ih =>
    have hp : ¬ sep.isPrefixOf (x :: (u ++ c :: (sep ++ rest))) = true := by
      rw [List.isPrefixOf_iff_prefix]
      exact not_prefix_append sep (x :: u) (sep ++ rest) c hc hu
    have hu2 : ¬ sep <:+: u := fun h => hu (List.infix_cons h)
    rw [List.cons_append, cut_cons, if_neg hp, ih hu2]
    rfl

theorem cut_single_append (c : Char) (u rest : List Char) (h : c ∉ u) :
    cut [c] (u ++ c :: rest) = some (u, rest) := by
  induction u with
  | nil =>
    have hp : [c].isPrefixOf (c :: rest) = true := by
      rw [List.isPrefixOf_iff_prefix]
      exact ⟨rest, rfl⟩
    rw [List.nil_append, cut_cons, if_pos hp]
    rfl
  | cons x u ih =>
    have hx : c ≠ x := fun hcx => h (by simp [hcx])
    have hp : ¬ [c].isPrefixOf (x :: (u ++ c :: rest)) = true := by
      rw [List.isPrefixOf_iff_prefix, List.cons_prefix_cons]
      exact fun hh => hx hh.1
    rw [List.cons_append, cut_cons, if_neg hp, ih (fun hcu => h (List.mem_cons_of_mem _ hcu))]
    rfl

theorem firstPiece_single_not_mem (c : Char) (s : List Char) : c ∉ firstPiece [c] s := by
  unfold firstPiece
  cases h : cut [c] s with
  | none => exact cut_single_none c s h
  | some p => exact cut_single_not_mem c s p.1 p.2 h

theorem splitFuel_head (sep : List Char) (hne : sep ≠ []) (fuel : Nat) (s : List Char)
    (hf : s.length ≤ fuel) : (splitFuel sep fuel s)[0]? = some (firstPiece sep s) := by
  cases fuel with
  | zero =>
    have hs : s = [] := List.length_eq_zero.mp (by omega)
    subst hs
    simp [splitFuel, firstPiece, cut_nil sep hne]
  | succ k =>
    unfold firstPiece
    rw [splitFuel]
    cases cut sep s with
    | none => simp
    | some p => simp

theorem splitFuel_second (sep : List Char) (hne : sep ≠ []) (fuel : Nat) (s : List Char)
    (hf : s.length ≤ fuel) :
    (splitFuel sep fuel s)[1]? = (cut sep s).map (fun p => firstPiece sep p.2) := by
  cases fuel with
  | zero =>
    have hs : s = [] := List.length_eq_zero.mp (by omega)
    subst hs
    simp [splitFuel, cut_nil sep hne]
  | succ k =>
    rw [splitFuel]
    cases hc : cut sep s with
    | none => rfl
    | some p =>
      have hs := cut_eq_append sep s p.1 p.2 (by rw [hc])
      have hlen : p.2.length ≤ k := by
        have h1 := congrArg List.length hs
        have h2 : 0 < sep.length := List.length_pos.mpr hne
        simp only [List.length_append] at h1
        omega
      simp only [Option.map_some', List.getElem?_cons_succ]
      exact splitFuel_head sep hne k p.2 hlen

theorem Split_head (s sep : String) (hne : sep.toList ≠ []) :
    (Split s sep)[0]? = some (String.mk (firstPiece sep.toList s.toList)) := by
  simp only [Split, List.getElem?_map]
  rw [splitFuel_head sep.toList hne s.length s.toList (le_refl _)]
  rfl

theorem Split_second (s sep : String) (hne : sep.toList ≠ []) :
    (Split s sep)[1]? =
      (cut sep.toList s.toList).map (fun p => String.mk (firstPiece sep.toList p.2)) := by
  simp only [Split, List.getElem?_map]
  rw [splitFuel_second sep.toList hne s.length s.toList (le_refl _)]
  cases cut sep.toList s.toList <;> rfl

theorem mergeLoop_cons (q : String) (rest : List String) (query : String) :
    mergeLoop (q :: rest) query =
      match tupleOf q with
      | none => none
      | some tuple => mergeLoop rest (query ++ tuple) := by
  rw [mergeLoop, Split_second q "VALUES" (by decide)]
  unfold tupleOf
  cases cut "VALUES".toList q.toList with
  | none => rfl
  | some p =>
    simp only [Option.map_some']
    rw [Split_head _ ";" (by decide)]
    rfl

theorem MergeManyInsertsIntoOneInsert_cons (first : String) (rest : List String) :
    MergeManyInsertsIntoOneInsert (first :: rest) =
      (mergeLoop rest (String.mk (firstPiece [';'] first.toList))).map (fun q => q ++ ";") := by
  rw [MergeManyInsertsIntoOneInsert, Split_head first ";" (by decide)]
  simp only
  have hs : ";".toList = [';'] := rfl
  rw [hs]
  cases mergeLoop rest (String.mk (firstPiece [';'] first.toList)) <;> rfl

end StrikeMySQL

namespace StrikeMySQL

/-! ## Merging INSERT statements -/

theorem tupleOf_eq_none_iff (q : String) :
    tupleOf q = none ↔ ¬ "VALUES".toList <:+: q.toList := by
  unfold tupleOf
  rw [Option.map_eq_none', cut_eq_none_iff]

theorem tupleOf_no_semicolon (q t : String) (h : tupleOf q = some t) : ';' ∉ t.toList := by
  unfold tupleOf at h
  cases hc : cut "VALUES".toList q.toList with
  | none =>
    rw [hc] at h
    exact absurd h (by simp)
  | some p =>
    rw [hc] at h
    simp only [Option.map_some', Option.some.injEq] at h
    rw [← h]
    exact firstPiece_single_not_mem ';' _

theorem mergeLoop_eq_none_iff (rest : List String) :
    ∀ query : String, mergeLoop rest query = none ↔ ∃ q ∈ rest, tupleOf q = none := by
  induction rest with
  | nil => intro query; simp [mergeLoop]
  | cons q rest ih =>
    intro query
    rw [mergeLoop_cons]
    cases ht : tupleOf q with
    | none => simp [ht]
    | some t =>
      simp only [ih, List.mem_cons, exists_eq_or_imp, ht]
      simp

theorem mergeLoop_no_semicolon (rest : List String) :
    ∀ query r : String, mergeLoop rest query = some r → ';' ∉ query.toList →
      ';' ∉ r.toList := by
  induction rest with
  | nil =>
    intro query r h hq
    simp only [mergeLoop, Option.some.injEq] at h
    rw [← h]
    exact hq
  | cons q rest ih =>
    intro query r h hq
    rw [mergeLoop_cons] at h
    cases ht : tupleOf q with
    | none => simp [ht] at h
    | some t =>
      simp only [ht] at h
      apply ih (query ++ t) r h
      have := tupleOf_no_semicolon q t ht
      simp only [String.toList, String.data_append, List.mem_append, not_or] at this hq ⊢
      exact ⟨hq, this⟩

/-- C14 (as stated, refuted): the merge of the two statements `a` and `b` fails although
statements are given, the second one having no `VALUES`. -/
theorem MergeManyInsertsIntoOneInsert_fails_counterexample :
    ¬ (MergeManyInsertsIntoOneInsert ["a", "b"] = none ↔ (["a", "b"] : List String) = []) := by
  decide

/-- C14 (amended): `MergeManyInsertsIntoOneInsert` fails exactly when it is given no
statements or when a statement after the first does not contain the text `VALUES`; in
every other case it returns a string. -/
theorem MergeManyInsertsIntoOneInsert_eq_none_iff (queries : List String) :
    MergeManyInsertsIntoOneInsert queries = none ↔
      (queries = [] ∨ ∃ q ∈ queries.tail, ¬ "VALUES".toList <:+: q.toList) := by
  cases queries with
  | nil => simp [MergeManyInsertsIntoOneInsert]
  | cons first rest =>
    rw [MergeManyInsertsIntoOneInsert_cons, Option.map_eq_none', mergeLoop_eq_none_iff]
    simp [tupleOf_eq_none_iff]

/-- C15: for a non-empty list of statements in which every statement after the first
contains `VALUES`, the merge returns a text with exactly one `;`, which is its last
character, whatever the number of `;` in the statements. -/
theorem MergeManyInsertsIntoOneInsert_semicolon (queries : List String) (hne : queries ≠ [])
    (hv : ∀ q ∈ queries.tail, "VALUES".toList <:+: q.toList) :
    ∃ r, MergeManyInsertsIntoOneInsert queries = some r ∧ r.toList.count ';' = 1 ∧
      r.toList.getLast? = some ';' := by
  cases queries with
  | nil => exact absurd rfl hne
  | cons first rest =>
    rw [MergeManyInsertsIntoOneInsert_cons]
    cases hm : mergeLoop rest (String.mk (firstPiece [';'] first.toList)) with
    | none =>
      rw [mergeLoop_eq_none_iff] at hm
      obtain ⟨q, hq, hnone⟩ := hm
      rw [tupleOf_eq_none_iff] at hnone
      exact absurd (hv q hq) hnone
    | some body =>
      have hb : ';' ∉ body.toList :=
        mergeLoop_no_semicolon rest _ body hm (firstPiece_single_not_mem ';' _)
      refine ⟨body ++ ";", rfl, ?_, ?_⟩
      · have h1 : (body ++ ";").toList = body.toList ++ [';'] := by
          simp [String.toList, String.data_append]
        rw [h1, List.count_append, List.count_eq_zero_of_not_mem hb]
        rfl
      · have h1 : (body ++ ";").toList = body.toList ++ [';'] := by
          simp [String.toList, String.data_append]
        rw [h1]
        simp

/-- C15 witness: statements with several `;` and with none. -/
theorem MergeManyInsertsIntoOneInsert_semicolon_witness :
    ∃ r, MergeManyInsertsIntoOneInsert ["a;b;c", "x VALUES y;z;", "VALUES w"] = some r ∧
      r.toList.count ';' = 1 ∧ r.toList.getLast? = some ';' :=
  MergeManyInsertsIntoOneInsert_semicolon ["a;b;c", "x VALUES y;z;", "VALUES w"] (by simp)
    (by decide)

end StrikeMySQL

namespace StrikeMySQL

theorem stmt_toList (P T : String) :
    (P ++ " VALUES " ++ T ++ ";").toList =
      P.toList ++ ' ' :: ("VALUES".toList ++ (' ' :: T.toList ++ [';'])) := by
  have h1 : " VALUES ".data = ' ' :: ("VALUES".toList ++ [' ']) := rfl
  have h2 : ";".data = [';'] := rfl
  simp only [String.toList, String.data_append, h1, h2, List.append_assoc, List.cons_append,
    List.nil_append, List.singleton_append]

theorem tupleOf_stmt (P T : String) (hP : Plain P) (hT : Plain T) :
    tupleOf (P ++ " VALUES " ++ T ++ ";") = some (" " ++ T) := by
  have hcut : cut "VALUES".toList (P ++ " VALUES " ++ T ++ ";").toList =
      some (P.toList ++ [' '], ' ' :: T.toList ++ [';']) := by
    rw [stmt_toList]
    exact cut_append_sep _ _ _ ' ' (by decide) (by decide) hP.2
  have hrest : firstPiece "VALUES".toList (' ' :: T.toList ++ [';']) =
      ' ' :: T.toList ++ [';'] := by
    have hn : cut "VALUES".toList (' ' :: T.toList ++ [';']) = none := by
      rw [cut_eq_none_iff]
      exact not_infix_concat _ _ ';' (by decide) (not_infix_cons _ _ ' ' (by decide) hT.2)
    simp only [firstPiece, hn]
  have hsemi : firstPiece [';'] (' ' :: T.toList ++ [';']) = ' ' :: T.toList := by
    have hm : ';' ∉ ' ' :: T.toList := by
      intro h
      rcases List.mem_cons.mp h with h | h
      · exact absurd h (by decide)
      · exact hT.1 h
    have := cut_single_append ';' (' ' :: T.toList) [] hm
    simp only [firstPiece, this]
  unfold tupleOf
  rw [hcut]
  simp only [Option.map_some', hrest, hsemi]
  rfl

theorem firstPiece_stmt (P T : String) (hP : Plain P) (hT : Plain T) :
    String.mk (firstPiece [';'] (P ++ " VALUES " ++ T ++ ";").toList) = P ++ " VALUES " ++ T := by
  have h2 : ";".data = [';'] := rfl
  have hl : (P ++ " VALUES " ++ T ++ ";").toList = (P ++ " VALUES " ++ T).toList ++ ';' :: [] := by
    simp only [String.toList, String.data_append, h2]
  have hm : ';' ∉ (P ++ " VALUES " ++ T).toList := by
    have h1 : ';' ∉ " VALUES ".data := by decide
    have hp := hP.1
    have ht := hT.1
    simp only [String.toList] at hp ht
    simp only [String.toList, String.data_append, List.mem_append, not_or]
    exact ⟨⟨hp, h1⟩, ht⟩
  have := cut_single_append ';' _ [] hm
  rw [hl]
  simp only [firstPiece, this]
  rfl

theorem mergeLoop_stmts (P : String) (hP : Plain P) (Ts : List String)
    (hT : ∀ T ∈ Ts, Plain T) :
    ∀ query : String,
      mergeLoop (Ts.map (fun T => P ++ " VALUES " ++ T ++ ";")) query =
        some (String.intercalate.go query " " Ts) := by
  induction Ts with
  | nil => intro query; rfl
  | cons T Ts ih =>
    intro query
    rw [List.map_cons, mergeLoop_cons, tupleOf_stmt P T hP (hT T (by simp))]
    simp only
    rw [ih (fun T2 h2 => hT T2 (List.mem_cons_of_mem _ h2)), ← String.append_assoc]
    rfl

/-- The merge of statements that share a prefix and have plain tuples keeps the first
statement and appends every later tuple after one space. -/
theorem merge_stmts (P : String) (hP : Plain P) (Ts : List String) (hne : Ts ≠ [])
    (hT : ∀ T ∈ Ts, Plain T) :
    MergeManyInsertsIntoOneInsert (Ts.map (fun T => P ++ " VALUES " ++ T ++ ";")) =
      some (P ++ " VALUES " ++ " ".intercalate Ts ++ ";") := by
  cases Ts with
  | nil => exact absurd rfl hne
  | cons T Ts =>
    rw [List.map_cons, MergeManyInsertsIntoOneInsert_cons,
      firstPiece_stmt P T hP (hT T (by simp)),
      mergeLoop_stmts P hP Ts (fun T2 h2 => hT T2 (List.mem_cons_of_mem _ h2)),
      intercalate_go_append]
    rfl

/-- C12: for a prefix `P` and `n ≥ 1` value tuples, none of these texts containing `;` or
`VALUES`, the merge of the statements `P VALUES Ti;` is `P VALUES ` followed by the tuples
joined by a single space, in input order, and `;`. -/
theorem MergeManyInsertsIntoOneInsert_eq (P : String) (Ts : List String) (hn : 1 ≤ Ts.length)
    (hP : Plain P) (hT : ∀ T ∈ Ts, Plain T) :
    MergeManyInsertsIntoOneInsert (Ts.map (fun T => P ++ " VALUES " ++ T ++ ";")) =
      some (P ++ " VALUES " ++ " ".intercalate Ts ++ ";") :=
  merge_stmts P hP Ts (by intro h; rw [h] at hn; simp at hn) hT

end StrikeMySQL

namespace StrikeMySQL

/-- C12 witness: the three nickname statements of `TestInsertQueryWithStructWithList`. -/
theorem MergeManyInsertsIntoOneInsert_eq_witness :
    MergeManyInsertsIntoOneInsert
        (["(1, 'Black Mamba')", "(1, 'KB24')", "(1, 'Little Fliying Warrior')"].map
          (fun T => "INSERT INTO basket_players_nicknames (id, nickname)" ++ " VALUES " ++ T ++
            ";")) =
      some ("INSERT INTO basket_players_nicknames (id, nickname)" ++ " VALUES " ++
        " ".intercalate ["(1, 'Black Mamba')", "(1, 'KB24')", "(1, 'Little Fliying Warrior')"] ++
        ";") :=
  MergeManyInsertsIntoOneInsert_eq "INSERT INTO basket_players_nicknames (id, nickname)"
    ["(1, 'Black Mamba')", "(1, 'KB24')", "(1, 'Little Fliying Warrior')"] (by decide)
    ⟨by decide, by decide⟩
    (by
      intro T hT
      simp only [List.mem_cons, List.mem_singleton, List.not_mem_nil, or_false] at hT
      rcases hT with rfl | rfl | rfl <;> exact ⟨by decide, by decide⟩)

theorem not_infix_append_sep (sep a b : List Char) (c : Char) (hc : c ∉ sep)
    (ha : ¬ sep <:+: a) (hb : ¬ sep <:+: b) : ¬ sep <:+: a ++ c :: b := by
  induction a with
  | nil => exact not_infix_cons sep b c hc hb
  | cons x a ih =>
    rw [List.cons_append, List.infix_cons_iff]
    rintro (hp | hi)
    · exact not_prefix_append sep (x :: a) b c hc ha hp
    · exact ih (fun h => ha (List.infix_cons h)) hi

theorem plain_paren (r : String) (h : Plain r) : Plain ("(" ++ r ++ ")") := by
  have hl : ("(" ++ r ++ ")").toList = '(' :: r.toList ++ [')'] := by
    have h1 : "(".data = ['('] := rfl
    have h2 : ")".data = [')'] := rfl
    simp only [String.toList, String.data_append, h1, h2, List.singleton_append]
  unfold Plain
  rw [hl]
  refine ⟨?_, not_infix_concat _ _ ')' (by decide) (not_infix_cons _ _ '(' (by decide) h.2)⟩
  intro hm
  simp only [List.mem_append, List.mem_cons, List.mem_singleton, List.not_mem_nil,
    or_false] at hm
  rcases hm with (hm | hm) | hm
  · exact absurd hm (by decide)
  · exact h.1 hm
  · exact absurd hm (by decide)

theorem plain_insert_prefix (T cols : String) (hT : Plain T) (hc : Plain cols) :
    Plain ("INSERT INTO " ++ T ++ " (" ++ cols ++ ")") := by
  have hl : ("INSERT INTO " ++ T ++ " (" ++ cols ++ ")").toList =
      "INSERT INTO".toList ++ ' ' :: (T.toList ++ ' ' :: ('(' :: cols.toList ++ [')'])) := by
    have h1 : "INSERT INTO ".data = "INSERT INTO".toList ++ [' '] := rfl
    have h2 : " (".data = [' ', '('] := rfl
    have h3 : ")".data = [')'] := rfl
    simp only [String.toList, String.data_append, h1, h2, h3, List.append_assoc,
      List.cons_append, List.nil_append, List.singleton_append]
  unfold Plain
  rw [hl]
  constructor
  · intro hm
    have a1 : ';' ∉ "INSERT INTO".toList := by decide
    have e1 : ';' ≠ ' ' := by decide
    have e2 : ';' ≠ '(' := by decide
    have e3 : ';' ≠ ')' := by decide
    have a2 := hT.1
    have a3 := hc.1
    simp only [List.mem_append, List.mem_cons, List.mem_singleton, List.not_mem_nil,
      or_false] at hm
    tauto
  · apply not_infix_append_sep _ _ _ ' ' (by decide) (by decide)
    apply not_infix_append_sep _ _ _ ' ' (by decide) hT.2
    exact not_infix_concat _ _ ')' (by decide) (not_infix_cons _ _ '(' (by decide) hc.2)

set_option maxRecDepth 8000 in
/-- C13 (as stated, refuted): the merge of the three nickname statements of
`TestInsertQueryWithStructWithList` is not the space-free concatenation of the three
tuples; a space stands between them. -/
theorem MergeManyInsertsIntoOneInsert_space_free_counterexample :
    MergeManyInsertsIntoOneInsert
        ["INSERT INTO basket_players_nicknames (id, nickname) VALUES (1, 'Black Mamba');",
          "INSERT INTO basket_players_nicknames (id, nickname) VALUES (1, 'KB24');",
          "INSERT INTO basket_players_nicknames (id, nickname) VALUES (1, 'Little Fliying Warrior');"] ≠
      some ("INSERT INTO basket_players_nicknames (id, nickname) VALUES " ++ "(1, 'Black Mamba')" ++
        "(1, 'KB24')" ++ "(1, 'Little Fliying Warrior')" ++ ";") := by
  decide

/-- C13 (amended): for three single-row statements `INSERT INTO T (cols) VALUES (ri);` of
the same table and column list, where `T`, `cols` and the rows contain neither `;` nor
`VALUES`, the merged statement is `INSERT INTO T (cols) VALUES (r1) (r2) (r3);`: each later
tuple is appended after the previous one with a single space in between. -/
theorem MergeManyInsertsIntoOneInsert_three (T cols r1 r2 r3 : String) (hT : Plain T)
    (hc : Plain cols) (h1 : Plain r1) (h2 : Plain r2) (h3 : Plain r3) :
    MergeManyInsertsIntoOneInsert
        ["INSERT INTO " ++ T ++ " (" ++ cols ++ ")" ++ " VALUES " ++ ("(" ++ r1 ++ ")") ++ ";",
          "INSERT INTO " ++ T ++ " (" ++ cols ++ ")" ++ " VALUES " ++ ("(" ++ r2 ++ ")") ++ ";",
          "INSERT INTO " ++ T ++ " (" ++ cols ++ ")" ++ " VALUES " ++ ("(" ++ r3 ++ ")") ++ ";"] =
      some ("INSERT INTO " ++ T ++ " (" ++ cols ++ ")" ++ " VALUES " ++ ("(" ++ r1 ++ ")") ++ " " ++
        ("(" ++ r2 ++ ")") ++ " " ++ ("(" ++ r3 ++ ")") ++ ";") := by
  have hP := plain_insert_prefix T cols hT hc
  have hTs : ∀ x ∈ ["(" ++ r1 ++ ")", "(" ++ r2 ++ ")", "(" ++ r3 ++ ")"], Plain x := by
    intro x hx
    simp only [List.mem_cons, List.mem_singleton, List.not_mem_nil, or_false] at hx
    rcases hx with rfl | rfl | rfl
    · exact plain_paren r1 h1
    · exact plain_paren r2 h2
    · exact plain_paren r3 h3
  have hm := merge_stmts _ hP _ (by simp) hTs
  simp only [List.map_cons, List.map_nil] at hm
  rw [hm, intercalate_cons_cons, intercalate_cons_cons, intercalate_singleton]
  simp only [String.append_assoc]

set_option maxRecDepth 8000 in
/-- C13 witness: the three nickname statements of `TestInsertQueryWithStructWithList`. -/
theorem MergeManyInsertsIntoOneInsert_three_witness :
    MergeManyInsertsIntoOneInsert
        ["INSERT INTO " ++ "basket_players_nicknames" ++ " (" ++ "id, nickname" ++ ")" ++
            " VALUES " ++ ("(" ++ "1, 'Black Mamba'" ++ ")") ++ ";",
          "INSERT INTO " ++ "basket_players_nicknames" ++ " (" ++ "id, nickname" ++ ")" ++
            " VALUES " ++ ("(" ++ "1, 'KB24'" ++ ")") ++ ";",
          "INSERT INTO " ++ "basket_players_nicknames" ++ " (" ++ "id, nickname" ++ ")" ++
            " VALUES " ++ ("(" ++ "1, 'Little Fliying Warrior'" ++ ")") ++ ";"] =
      some "INSERT INTO basket_players_nicknames (id, nickname) VALUES (1, 'Black Mamba') (1, 'KB24') (1, 'Little Fliying Warrior');" :=
  (MergeManyInsertsIntoOneInsert_three "basket_players_nicknames" "id, nickname"
    "1, 'Black Mamba'" "1, 'KB24'" "1, 'Little Fliying Warrior'" ⟨by decide, by decide⟩
    ⟨by decide, by decide⟩ ⟨by decide, by decide⟩ ⟨by decide, by decide⟩
    ⟨by decide, by decide⟩).trans (by decide)

end StrikeMySQL

namespace StrikeMySQL

/-! ## Projection of a record -/

theorem firstPiece_single_eq_takeWhile (c : Char) (s : List Char) :
    firstPiece [c] s = s.takeWhile (fun d => decide (d ≠ c)) := by
  induction s with
  | nil => rfl
  | cons d ds ih =>
    unfold firstPiece at ih ⊢
    rw [cut_cons]
    by_cases hd : d = c
    · subst hd
      have hp : [d].isPrefixOf (d :: ds) = true := by
        rw [List.isPrefixOf_iff_prefix]
        exact ⟨ds, rfl⟩
      simp [hp]
    · have hp : ¬ [c].isPrefixOf (d :: ds) = true := by
        rw [List.isPrefixOf_iff_prefix, List.cons_prefix_cons]
        exact fun hh => hd hh.1.symm
      rw [if_neg hp, List.takeWhile_cons, if_pos (by simpa using hd), ← ih]
      cases cut [c] ds <;> rfl

theorem structTag_eq (fld : StructField) :
    fld.structTag = if fld.json = "" then fld.db else fld.json := by
  unfold StructField.structTag
  by_cases h : fld.json = "" <;> simp [h]

/-- One round of the projection loop. -/
theorem breakDownStructLoop_cons (lower : Char → Char) (isSpace : Char → Bool)
    (st : List StructField) (fld : StructField) (rest : List StructField)
    (reqRules : List Tuple) :
    breakDownStructLoop lower isSpace st (fld :: rest) reqRules =
      if readableIn st fld = true then
        if droppedIn st fld = true then breakDownStructLoop lower isSpace st rest reqRules
        else breakDownStructLoop lower isSpace st rest
          (reqRules ++ [⟨projectedName lower isSpace fld, valueIn st fld⟩])
      else none := by
  have hname : (if TrimSpace isSpace (String.mk (firstPiece ",".toList fld.structTag.toList)) ≠ "" ∧
        TrimSpace isSpace (String.mk (firstPiece ",".toList fld.structTag.toList)) ≠ "-" then
        TrimSpace isSpace (String.mk (firstPiece ",".toList fld.structTag.toList))
      else ToLower lower fld.Name) = projectedName lower isSpace fld := by
    have hc : ",".toList = [','] := rfl
    rw [hc, firstPiece_single_eq_takeWhile, structTag_eq]
    rfl
  rw [breakDownStructLoop]
  unfold readableIn droppedIn valueIn
  cases hlook : FieldByName st fld.Name with
  | none => simp
  | some value =>
    simp only
    rw [Split_head _ "," (by decide)]
    simp only [hname]
    unfold readable projectedValue
    cases hcont : value.content with
    | string s =>
      by_cases hd : (s == "" && Contains fld.structTag "omitempty") = true
      · simp [hd]
      · simp [hd]
    | int n => simp
    | other v =>
      by_cases he : value.Exported = true
      · simp [he]
      · simp [he]

theorem breakDownStructLoop_eq (lower : Char → Char) (isSpace : Char → Bool)
    (st flds : List StructField) :
    ∀ reqRules : List Tuple,
      breakDownStructLoop lower isSpace st flds reqRules =
        if flds.all (readableIn st) = true then
          some (reqRules ++ (flds.filter (fun f => !droppedIn st f)).map
            (fun f => ⟨projectedName lower isSpace f, valueIn st f⟩))
        else none := by
  induction flds with
  | nil => intro reqRules; simp [breakDownStructLoop]
  | cons fld rest ih =>
    intro reqRules
    rw [breakDownStructLoop_cons]
    by_cases hr : readableIn st fld = true
    · by_cases hd : droppedIn st fld = true
      · rw [if_pos hr, if_pos hd, ih]
        simp [hr, hd]
      · rw [if_pos hr, if_neg hd, ih]
        simp [hr, hd]
    · rw [if_neg hr]
      simp [hr]

/-- The projection of a record: nothing when the value looked up for some field cannot
be read, otherwise one tuple for each field that is not left out, in declaration order,
with the value looked up under the name of the field. -/
theorem breakDownStruct_eq (lower : Char → Char) (isSpace : Char → Bool)
    (st : List StructField) :
    breakDownStruct lower isSpace st =
      if st.all (readableIn st) = true then
        some ((st.filter (fun f => !droppedIn st f)).map
          (fun f => ⟨projectedName lower isSpace f, valueIn st f⟩))
      else none := by
  unfold breakDownStruct
  rw [breakDownStructLoop_eq]
  simp

theorem foldl_append_singleton (ts : List Tuple) :
    ∀ init : List FieldWithValue,
      ts.foldl (fun fields tuple => fields ++ [FieldWithValue.mk tuple.Name tuple.Value]) init =
        init ++ ts.map (fun tuple => FieldWithValue.mk tuple.Name tuple.Value) := by
  induction ts with
  | nil => intro init; simp
  | cons t ts ih => intro init; simp [ih]

theorem MakeInsertQueryWithStruct_eq (lower : Char → Char) (isSpace : Char → Bool)
    (tableName : String) (st : List StructField) :
    MakeInsertQueryWithStruct lower isSpace tableName st =
      if st.all (readableIn st) = true then
        some (MakeInsertQuery tableName ((st.filter (fun f => !droppedIn st f)).map
          (fun f => FieldWithValue.mk (projectedName lower isSpace f) (valueIn st f))))
      else none := by
  unfold MakeInsertQueryWithStruct
  rw [breakDownStruct_eq]
  by_cases hr : st.all (readableIn st) = true
  · simp only [hr, if_true, foldl_append_singleton, List.nil_append, List.map_map]
    rfl
  · simp only [hr, if_false]
    rfl

theorem ToLower_ne_empty (lower : Char → Char) (s : String) (h : s ≠ "") :
    ToLower lower s ≠ "" := by
  intro he
  apply h
  have hd : (ToLower lower s).data = [] := by rw [he]
  simp only [ToLower, String.toList, List.map_eq_nil_iff] at hd
  cases s with
  | mk d =>
    simp only at hd
    subst hd
    rfl

theorem projectedName_ne_empty (lower : Char → Char) (isSpace : Char → Bool)
    (fld : StructField) : projectedName lower isSpace fld ≠ "" := by
  unfold projectedName
  generalize TrimSpace isSpace _ = nick
  by_cases h : nick ≠ "" ∧ nick ≠ "-"
  · rw [if_pos h]
    exact h.1
  · rw [if_neg h]
    exact ToLower_ne_empty lower fld.Name fld.Name_ne

theorem literalIn_dropped (st : List StructField) (fld : StructField)
    (h : droppedIn st fld = true) : literalIn st fld = "" := by
  unfold droppedIn at h
  unfold literalIn valueIn
  cases hlook : FieldByName st fld.Name with
  | none => rfl
  | some value =>
    rw [hlook] at h
    simp only at h ⊢
    unfold projectedValue
    cases hc : value.content with
    | string s =>
      rw [hc] at h
      simp only [Bool.and_eq_true, beq_iff_eq] at h
      rw [h.1]
      rfl
    | int n => rw [hc] at h; exact absurd h (by simp)
    | other v => rw [hc] at h; exact absurd h (by simp)

/-- The fields of the projection that receive a column are those whose looked-up value is
of a primitive kind and has a non-empty literal. -/
theorem keptFields_projection (lower : Char → Char) (isSpace : Char → Bool)
    (st flds : List StructField) :
    keptFields ((flds.filter (fun f => !droppedIn st f)).map
        (fun f => FieldWithValue.mk (projectedName lower isSpace f) (valueIn st f))) =
      (flds.filter (fun f => isPrimitiveType (valueIn st f) &&
        decide (literalIn st f ≠ ""))).map
        (fun f => FieldWithValue.mk (projectedName lower isSpace f) (valueIn st f)) := by
  unfold keptFields
  rw [List.filter_map, List.filter_filter]
  congr 1
  apply List.filter_congr
  intro f _
  simp only [Function.comp]
  have hl : (FieldWithValue.mk (projectedName lower isSpace f) (valueIn st f)).printValue =
      literalIn st f := rfl
  rw [hl]
  by_cases hne : literalIn st f = ""
  · simp [hne]
  · have hd : droppedIn st f = false := by
      cases hdr : droppedIn st f with
      | false => rfl
      | true => exact absurd (literalIn_dropped st f hdr) hne
    have hp : isPrimitiveType (valueIn st f) = true := by
      cases hpr : isPrimitiveType (valueIn st f) with
      | true => rfl
      | false =>
        exact absurd ((printValue_eq_empty_iff_aux "" (valueIn st f)).mpr
          (Or.inr (Or.inr hpr))) hne
    simp [hne, hd, hp]

end StrikeMySQL

namespace StrikeMySQL

/-- The statement built from a record: nothing when the value looked up for some field
cannot be read; otherwise the projected names and the literals of the fields whose
looked-up value is of a primitive kind and has a non-empty literal, in declaration
order. -/
theorem MakeInsertQueryWithStruct_columns (lower : Char → Char) (isSpace : Char → Bool)
    (tableName : String) (st : List StructField) :
    MakeInsertQueryWithStruct lower isSpace tableName st =
      if st.all (readableIn st) = true then
        some ("INSERT INTO " ++ tableName ++ " (" ++
          ", ".intercalate
            ((st.filter (fun f => isPrimitiveType (valueIn st f) &&
              decide (literalIn st f ≠ ""))).map (projectedName lower isSpace)) ++
          ") VALUES (" ++
          ", ".intercalate
            ((st.filter (fun f => isPrimitiveType (valueIn st f) &&
              decide (literalIn st f ≠ ""))).map (literalIn st)) ++
          ");")
      else none := by
  rw [MakeInsertQueryWithStruct_eq]
  by_cases hr : st.all (readableIn st) = true
  · simp only [hr, if_true, Option.some.injEq]
    have hstart := splitFieldsAndValuesLoop_start
      ((st.filter (fun f => !droppedIn st f)).map
        (fun f => FieldWithValue.mk (projectedName lower isSpace f) (valueIn st f))) 0
      (by
        intro f g r hk
        have hf : f ∈ keptFields ((st.filter (fun f => !droppedIn st f)).map
            (fun f => FieldWithValue.mk (projectedName lower isSpace f) (valueIn st f))) := by
          rw [hk]
          simp
        rw [keptFields_projection] at hf
        obtain ⟨x, _, rfl⟩ := List.mem_map.mp hf
        exact projectedName_ne_empty lower isSpace x)
    simp only [MakeInsertQuery, splitFieldsAndValues]
    rw [hstart, keptFields_projection]
    simp only [List.map_map]
    rfl
  · rw [if_neg hr, if_neg hr]

/-- C16: on a record with the two blank fields `_ int` and `_ []string`, and likewise with
`_ int` and `_ string`, the statement has two columns: the second field, which is a list
(or an empty string, whose literal is empty), gets a column with the value 0 that was
looked up under its name, the value of the first blank field. -/
theorem MakeInsertQueryWithStruct_blank_fields :
    MakeInsertQueryWithStruct Char.toLower Char.isWhitespace "t"
        [⟨"_", by decide, false, "", "", .int 0⟩,
          ⟨"_", by decide, false, "", "", .other (.other "[]")⟩] =
      some "INSERT INTO t (_, _) VALUES (0, 0);" ∧
    MakeInsertQueryWithStruct Char.toLower Char.isWhitespace "t"
        [⟨"_", by decide, false, "", "", .int 0⟩,
          ⟨"_", by decide, false, "", "", .string ""⟩] =
      some "INSERT INTO t (_, _) VALUES (0, 0);" ∧
    isPrimitiveType (projectedValue ⟨"_", by decide, false, "", "", .other (.other "[]")⟩) =
      false ∧
    (FieldWithValue.mk "_"
      (projectedValue ⟨"_", by decide, false, "", "", .string ""⟩)).printValue = "" := by
  decide

/-- C17: a field of kind string that holds the empty string and whose tag is the bare
alias `omitempty_note`, with no option after the alias, is left out of the projection:
no tuple is returned for the record that consists of this field. -/
theorem breakDownStruct_omitempty_in_alias :
    (breakDownStruct Char.toLower Char.isWhitespace
        [⟨"Note", by decide, true, "omitempty_note", "", .string ""⟩]).map List.length =
      some 0 ∧
    "omitempty" ∉ (Split "omitempty_note" ",").drop 1 := by
  decide

/-- With the blank fields `_ string` and `_ int` tagged `x,omitempty`, the second field is
tested with the empty string looked up under its name and is left out, although it is of
kind int. -/
theorem breakDownStruct_blank_fields :
    (breakDownStruct Char.toLower Char.isWhitespace
        [⟨"_", by decide, false, "", "", .string ""⟩,
          ⟨"_", by decide, false, "x,omitempty", "", .int 0⟩]).map List.length = some 1 := by
  decide

/-- C18: for every field that `breakDownStruct` includes, the projected name is the text
before the first `,` of the json tag (of the db tag when the json tag is empty) with the
surrounding white space trimmed, when that text is neither empty nor `-`, and the
declared name in lower case otherwise. -/
theorem breakDownStruct_names (lower : Char → Char) (isSpace : Char → Bool)
    (st : List StructField) (ts : List Tuple) (h : breakDownStruct lower isSpace st = some ts) :
    ts.map (fun t => t.Name) =
      (st.filter (fun f => !droppedIn st f)).map (fun f =>
        (fun nick => if nick ≠ "" ∧ nick ≠ "-" then nick else ToLower lower f.Name)
          (TrimSpace isSpace (String.mk
            ((if f.json = "" then f.db else f.json).toList.takeWhile
              (fun c => decide (c ≠ ',')))))) := by
  rw [breakDownStruct_eq] at h
  by_cases hr : st.all (readableIn st) = true
  · rw [if_pos hr] at h
    simp only [Option.some.injEq] at h
    rw [← h, List.map_map]
    rfl
  · rw [if_neg hr] at h
    exact absurd h (by simp)

/-- C18 witness: an alias with white space and an option, the skip marker, a db alias and
a field without tag. -/
theorem breakDownStruct_names_witness :
    breakDownStruct Char.toLower Char.isWhitespace
        [⟨"Name", by decide, true, " nick , omitempty", "", .string "a"⟩,
          ⟨"Other", by decide, true, "-", "", .string "x"⟩,
          ⟨"Age", by decide, true, "", "age_years", .int 3⟩,
          ⟨"Plain", by decide, true, "", "", .int 1⟩] =
        some [⟨"nick", .str "a"⟩, ⟨"other", .str "x"⟩, ⟨"age_years", .int64 3⟩,
          ⟨"plain", .int64 1⟩] ∧
      ([⟨"nick", .str "a"⟩, ⟨"other", .str "x"⟩, ⟨"age_years", .int64 3⟩,
          ⟨"plain", .int64 1⟩] : List Tuple).map (fun t => t.Name) =
        ["nick", "other", "age_years", "plain"] :=
  ⟨rfl, (breakDownStruct_names Char.toLower Char.isWhitespace
    [⟨"Name", by decide, true, " nick , omitempty", "", .string "a"⟩,
      ⟨"Other", by decide, true, "-", "", .string "x"⟩,
      ⟨"Age", by decide, true, "", "age_years", .int 3⟩,
      ⟨"Plain", by decide, true, "", "", .int 1⟩]
    [⟨"nick", .str "a"⟩, ⟨"other", .str "x"⟩, ⟨"age_years", .int64 3⟩, ⟨"plain", .int64 1⟩]
    rfl).trans (by decide)⟩

end StrikeMySQL

namespace StrikeMySQL

/-! ## Empty strings dropped at projection or at pairing -/

/-- From a state the loop can reach, the position of the next field does not matter. -/
theorem splitFieldsAndValuesLoop_index (l : List FieldWithValue) :
    ∀ (i : Nat) (fn fv : String), (i = 0 → fn = "") →
      splitFieldsAndValuesLoop i l (fn, fv) = splitFieldsAndValuesLoop 1 l (fn, fv) := by
  induction l with
  | nil => intro i fn fv _; rw [splitFieldsAndValuesLoop, splitFieldsAndValuesLoop]
  | cons a rest ih =>
    intro i fn fv hi
    rw [splitFieldsAndValuesLoop_cons, splitFieldsAndValuesLoop_cons]
    by_cases ha : a.printValue = ""
    · rw [if_neg (by simpa using ha), if_neg (by simpa using ha)]
      rw [ih (i + 1) fn fv (by omega), ih (1 + 1) fn fv (by omega)]
    · rw [if_pos ha, if_pos ha]
      by_cases hfn : fn = ""
      · have h1 : ¬ (i ≠ 0 ∧ fn ≠ "") := fun h => h.2 hfn
        have h2 : ¬ (1 ≠ 0 ∧ fn ≠ "") := fun h => h.2 hfn
        rw [if_neg h1, if_neg h2, ih (i + 1) _ _ (by omega), ih (1 + 1) _ _ (by omega)]
      · have hi0 : i ≠ 0 := fun h => hfn (hi h)
        rw [if_pos ⟨hi0, hfn⟩, if_pos ⟨by decide, hfn⟩, ih (i + 1) _ _ (by omega),
          ih (1 + 1) _ _ (by omega)]

/-- Fields without a literal can be removed beforehand. -/
theorem splitFieldsAndValuesLoop_kept (l : List FieldWithValue) :
    ∀ (fn fv : String),
      splitFieldsAndValuesLoop 1 l (fn, fv) =
        splitFieldsAndValuesLoop 1 (keptFields l) (fn, fv) := by
  induction l with
  | nil => intro fn fv; rfl
  | cons a rest ih =>
    intro fn fv
    by_cases ha : a.printValue = ""
    · rw [keptFields_cons_of_empty a rest ha, splitFieldsAndValuesLoop_cons,
        if_neg (by simpa using ha), splitFieldsAndValuesLoop_index rest (1 + 1) fn fv (by omega)]
      exact ih fn fv
    · rw [keptFields_cons_of_ne a rest ha, splitFieldsAndValuesLoop_cons,
        splitFieldsAndValuesLoop_cons, if_pos ha, if_pos ha]
      by_cases hc : 1 ≠ 0 ∧ fn ≠ ""
      · rw [if_pos hc, if_pos hc, splitFieldsAndValuesLoop_index rest (1 + 1) _ _ (by omega),
          splitFieldsAndValuesLoop_index (keptFields rest) (1 + 1) _ _ (by omega)]
        exact ih _ _
      · rw [if_neg hc, if_neg hc, splitFieldsAndValuesLoop_index rest (1 + 1) _ _ (by omega),
          splitFieldsAndValuesLoop_index (keptFields rest) (1 + 1) _ _ (by omega)]
        exact ih _ _

theorem MakeInsertQuery_congr_kept (tableName : String) (l1 l2 : List FieldWithValue)
    (h : keptFields l1 = keptFields l2) :
    MakeInsertQuery tableName l1 = MakeInsertQuery tableName l2 := by
  have hs : splitFieldsAndValues l1 = splitFieldsAndValues l2 := by
    unfold splitFieldsAndValues
    rw [splitFieldsAndValuesLoop_index l1 0 "" "" (fun _ => rfl),
      splitFieldsAndValuesLoop_index l2 0 "" "" (fun _ => rfl),
      splitFieldsAndValuesLoop_kept l1, splitFieldsAndValuesLoop_kept l2, h]
  unfold MakeInsertQuery
  rw [hs]

/-- Two records that differ in the tags of one field look up values of the same content
and access under every name. -/
theorem FieldByName_congr (before after : List StructField) (f g : StructField)
    (hn : g.Name = f.Name) (he : g.Exported = f.Exported) (hc : g.content = f.content)
    (name : String) :
    (FieldByName (before ++ f :: after) name = none ∧
        FieldByName (before ++ g :: after) name = none) ∨
      ∃ v w, FieldByName (before ++ f :: after) name = some v ∧
        FieldByName (before ++ g :: after) name = some w ∧ v.content = w.content ∧
        v.Exported = w.Exported := by
  unfold FieldByName
  rw [List.find?_append, List.find?_append]
  cases hb : List.find? (fun x => x.Name == name) before with
  | some v => exact Or.inr ⟨v, v, rfl, rfl, rfl, rfl⟩
  | none =>
    simp only [Option.none_or, List.find?_cons, hn]
    cases hf : (f.Name == name) with
    | true => exact Or.inr ⟨f, g, rfl, rfl, hc.symm, he.symm⟩
    | false =>
      cases ha : List.find? (fun x => x.Name == name) after with
      | some v => exact Or.inr ⟨v, v, rfl, rfl, rfl, rfl⟩
      | none => exact Or.inl ⟨rfl, rfl⟩

theorem valueIn_congr (before after : List StructField) (f g : StructField)
    (hn : g.Name = f.Name) (he : g.Exported = f.Exported) (hc : g.content = f.content)
    (x : StructField) :
    valueIn (before ++ f :: after) x = valueIn (before ++ g :: after) x := by
  unfold valueIn
  rcases FieldByName_congr before after f g hn he hc x.Name with ⟨h1, h2⟩ |
    ⟨v, w, h1, h2, hcont, _⟩
  · rw [h1, h2]
  · rw [h1, h2]
    simp only [projectedValue, hcont]

theorem readableIn_congr (before after : List StructField) (f g : StructField)
    (hn : g.Name = f.Name) (he : g.Exported = f.Exported) (hc : g.content = f.content)
    (x : StructField) :
    readableIn (before ++ f :: after) x = readableIn (before ++ g :: after) x := by
  unfold readableIn
  rcases FieldByName_congr before after f g hn he hc x.Name with ⟨h1, h2⟩ |
    ⟨v, w, h1, h2, hcont, hexp⟩
  · rw [h1, h2]
  · rw [h1, h2]
    simp only [readable, hcont, hexp]

/-- C20: a record gives the same statement whether a field of kind string holding the
empty string is left out by the projection (its tag has `omitempty`) or projected with
its empty value (its tag has not, the alias being the same): two records that differ
only in the tag of one field, with the same alias, have the same result of
`MakeInsertQueryWithStruct`. -/
theorem MakeInsertQueryWithStruct_omitempty (lower : Char → Char) (isSpace : Char → Bool)
    (tableName : String) (before after : List StructField) (f g : StructField)
    (hn : g.Name = f.Name) (he : g.Exported = f.Exported) (hc : g.content = f.content)
    (ha : projectedName lower isSpace g = projectedName lower isSpace f) :
    MakeInsertQueryWithStruct lower isSpace tableName (before ++ f :: after) =
      MakeInsertQueryWithStruct lower isSpace tableName (before ++ g :: after) := by
  have hV := valueIn_congr before after f g hn he hc
  have hR := readableIn_congr before after f g hn he hc
  have hVfg : valueIn (before ++ g :: after) f = valueIn (before ++ g :: after) g := by
    unfold valueIn
    rw [hn]
  have hRfg : readableIn (before ++ g :: after) f = readableIn (before ++ g :: after) g := by
    unfold readableIn
    rw [hn]
  have hRfun : readableIn (before ++ f :: after) = readableIn (before ++ g :: after) :=
    funext hR
  have hKfun : (fun x => isPrimitiveType (valueIn (before ++ f :: after) x) &&
        decide (literalIn (before ++ f :: after) x ≠ "")) =
      (fun x => isPrimitiveType (valueIn (before ++ g :: after) x) &&
        decide (literalIn (before ++ g :: after) x ≠ "")) := by
    funext x
    simp only [literalIn, hV x]
  have hPfun : (fun x => FieldWithValue.mk (projectedName lower isSpace x)
        (valueIn (before ++ f :: after) x)) =
      (fun x => FieldWithValue.mk (projectedName lower isSpace x)
        (valueIn (before ++ g :: after) x)) := by
    funext x
    rw [hV x]
  have hall : (before ++ f :: after).all (readableIn (before ++ f :: after)) =
      (before ++ g :: after).all (readableIn (before ++ g :: after)) := by
    rw [hRfun]
    simp only [List.all_append, List.all_cons, hRfg]
  have hk : keptFields (((before ++ f :: after).filter
        (fun x => !droppedIn (before ++ f :: after) x)).map
        (fun x => FieldWithValue.mk (projectedName lower isSpace x)
          (valueIn (before ++ f :: after) x))) =
      keptFields (((before ++ g :: after).filter
        (fun x => !droppedIn (before ++ g :: after) x)).map
        (fun x => FieldWithValue.mk (projectedName lower isSpace x)
          (valueIn (before ++ g :: after) x))) := by
    rw [keptFields_projection, keptFields_projection, hKfun, hPfun]
    simp only [List.filter_append, List.filter_cons, List.map_append, literalIn, hVfg]
    congr 1
    by_cases hkg : (isPrimitiveType (valueIn (before ++ g :: after) g) &&
        decide ((FieldWithValue.mk "" (valueIn (before ++ g :: after) g)).printValue ≠ "")) =
        true
    · rw [if_pos hkg, if_pos hkg]
      simp only [List.map_cons, hVfg, ha]
    · rw [if_neg hkg, if_neg hkg]
  rw [MakeInsertQueryWithStruct_eq, MakeInsertQueryWithStruct_eq, hall,
    MakeInsertQuery_congr_kept tableName _ _ hk]

/-- C20 witness: the same record with and without `omitempty` on its empty field. -/
theorem MakeInsertQueryWithStruct_omitempty_witness :
    MakeInsertQueryWithStruct Char.toLower Char.isWhitespace "goats"
        ([⟨"ID", by decide, true, "", "id", .int 10⟩] ++
          ⟨"Nick", by decide, true, "nick,omitempty", "", .string ""⟩ ::
          [⟨"Name", by decide, true, "name", "", .string "Leo"⟩]) =
      MakeInsertQueryWithStruct Char.toLower Char.isWhitespace "goats"
        ([⟨"ID", by decide, true, "", "id", .int 10⟩] ++
          ⟨"Nick", by decide, true, "nick", "", .string ""⟩ ::
          [⟨"Name", by decide, true, "name", "", .string "Leo"⟩]) ∧
    MakeInsertQueryWithStruct Char.toLower Char.isWhitespace "goats"
        ([⟨"ID", by decide, true, "", "id", .int 10⟩] ++
          ⟨"Nick", by decide, true, "nick", "", .string ""⟩ ::
          [⟨"Name", by decide, true, "name", "", .string "Leo"⟩]) =
      some "INSERT INTO goats (id, name) VALUES (10, 'Leo');" :=
  ⟨MakeInsertQueryWithStruct_omitempty Char.toLower Char.isWhitespace "goats"
    [⟨"ID", by decide, true, "", "id", .int 10⟩]
    [⟨"Name", by decide, true, "name", "", .string "Leo"⟩]
    ⟨"Nick", by decide, true, "nick,omitempty", "", .string ""⟩
    ⟨"Nick", by decide, true, "nick", "", .string ""⟩ rfl rfl rfl (by decide), by decide⟩

set_option maxRecDepth 20000 in
/-- The statement of `TestInsertQueryWithStructWithList`: seven primitive fields are kept
in declaration order and the list of nicknames is left out. -/
theorem MakeInsertQueryWithStruct_test :
    MakeInsertQueryWithStruct Char.toLower Char.isWhitespace "basket_legends"
        [⟨"ID", by decide, true, "", "id", .int 1⟩,
          ⟨"Name", by decide, true, "", "name", .string "Kobe"⟩,
          ⟨"Surname", by decide, true, "", "surname", .string "Bryant"⟩,
          ⟨"Number", by decide, true, "", "number", .int 8⟩,
          ⟨"PointsPerGame", by decide, true, "", "points_per_game",
            .other (.float32 ⟨"33.643", by decide⟩)⟩,
          ⟨"HasRetired", by decide, true, "", "has_retired", .other (.bool true)⟩,
          ⟨"BirthDate", by decide, true, "", "birth_date",
            .other (.time ⟨272689200, 0, -10800, "-03", none⟩)⟩,
          ⟨"Nicknames", by decide, true, "", "nicknames",
            .other (.other "[Black Mamba KB24 Little Fliying Warrior]")⟩] =
      some "INSERT INTO basket_legends (id, name, surname, number, points_per_game, has_retired, birth_date) VALUES (1, 'Kobe', 'Bryant', 8, 33.643, true, '1978-08-23 03:00:00');" := by
  decide

end StrikeMySQL
